import Mathlib

/-!
# gobin: resolution, cache layout and install

A shallow embedding of `main.go` (the `gobin` command).  Go strings are Lean
strings: the program cuts and compares them at ASCII characters only (`@`,
`/`, `:`), where bytes and characters agree.  The loops of the program are
structural recursions.  The `*arg` pointers of `allPkgs`, `netPkgs` and
`nonMain` are indices into one list of `arg` values, so that an update made
through one slice is seen through the others.  The external world (the `go`
toolchain, the process environment, the operating system and the
`module.EncodePath` library function) is a record of oracles, so that a
statement quantified over that record holds for every behaviour of the
toolchain.  Every toolchain invocation, every output line and every file
operation is appended to a trace, in program order.
-/

namespace Gobin

/-! ## Go standard library: strings and paths (Unix) -/

/-- Cut a character list at the first occurrence of `sep`: the part before
it and, when `sep` occurs, the part after it. -/
def cutFirst (sep : Char) : List Char → List Char × Option (List Char)
  | [] => ([], none)
  | c :: cs =>
    if c = sep then ([], some cs)
    else ((c :: (cutFirst sep cs).1), (cutFirst sep cs).2)

/-- Go `strings.SplitN(s, "@", 2)`: at most two parts, cut at the first `@`. -/
def SplitN2 (s : String) : List String :=
  match cutFirst '@' s.data with
  | (a, none) => [String.mk a]
  | (a, some b) => [String.mk a, String.mk b]

/-- Go `strings.Join(elems, sep)`. -/
def stringsJoin (sep : String) : List String → String
  | [] => ""
  | [a] => a
  | a :: b :: rest => a ++ sep ++ stringsJoin sep (b :: rest)

/-- Go `strings.HasPrefix(s, p)`. -/
def HasPrefix (s p : String) : Bool := p.data.isPrefixOf s.data

/-- Split a character list on `/` (every separator starts a new element). -/
def splitSlash : List Char → List (List Char)
  | [] => [[]]
  | c :: cs =>
    if c = '/' then [] :: splitSlash cs
    else
      match splitSlash cs with
      | [] => [[c]]
      | e :: es => (c :: e) :: es

/-- Join path elements with `/`. -/
def joinSlash : List (List Char) → List Char
  | [] => []
  | [e] => e
  | e :: f :: es => e ++ '/' :: joinSlash (f :: es)

/-- The element loop of Go `Clean`: `out` is the stack of elements written so
far, innermost first.  Empty and `.` elements are skipped, `..` removes the
last real element when there is one, is dropped at the root of a rooted path
and is kept otherwise. -/
def cleanElems (rooted : Bool) : List (List Char) → List (List Char) → List (List Char)
  | [], out => out
  | e :: es, out =>
    if e = [] ∨ e = ['.'] then cleanElems rooted es out
    else if e = ['.', '.'] then
      match out with
      | top :: rest =>
        if top ≠ ['.', '.'] then cleanElems rooted es rest
        else if rooted then cleanElems rooted es out
        else cleanElems rooted es (e :: out)
      | [] =>
        if rooted then cleanElems rooted es out
        else cleanElems rooted es (e :: out)
    else cleanElems rooted es (e :: out)

/-- Go `filepath.Clean` on character lists (Unix: no volume name). -/
def cleanChars (p : List Char) : List Char :=
  match p with
  | [] => ['.']
  | c :: _ =>
    let rooted : Bool := c = '/'
    let out := (cleanElems rooted (splitSlash p) []).reverse
    if rooted then '/' :: joinSlash out
    else if out = [] then ['.'] else joinSlash out

/-- Go `filepath.Clean`. -/
def Clean (p : String) : String := String.mk (cleanChars p.data)

/-- Go `filepath.Join`: the elements from the first non-empty one on are
joined with `/` and the result is cleaned; all empty gives the empty string. -/
def filepathJoin : List String → String
  | [] => ""
  | e :: es => if e = "" then filepathJoin es else Clean (stringsJoin "/" (e :: es))

/-- Go `filepath.FromSlash` (Unix: the separator is `/`, nothing to replace). -/
def FromSlash (p : String) : String := p

/-- Go `path.Base`: the last element of the path, after removing trailing
slashes; `.` for the empty path and `/` for a path of slashes only. -/
def pathBase (p : String) : String :=
  if p = "" then "."
  else
    let stripped := p.data.reverse.dropWhile (fun c => c = '/')
    let last := (stripped.takeWhile (fun c => c ≠ '/')).reverse
    if last = [] then "/" else String.mk last

/-! ## Data model -/

/-- The anonymous `Module` struct of `listPkg`. -/
structure listPkgModule where
  Path : String
  Dir : String
  Version : String
deriving DecidableEq, Repr, Inhabited

/-- One package record of the output of `go list -json`. -/
structure listPkg where
  ImportPath : String
  Name : String
  Dir : String
  Module : listPkgModule
deriving DecidableEq, Repr, Inhabited

/-- A command line-provided package.  `resErr` is `none` for Go's `nil`. -/
structure arg where
  patt : String
  pkgPatt : String
  verPatt : String
  mainPkgs : List listPkg
  wd : String
  resErr : Option String
  target : String
deriving DecidableEq, Repr, Inhabited

/-- The sentinel error for a package whose name is not `main`. -/
def errNonMain : String := "not a main package"

/-- The constant `debug` of the program. -/
def debug : Bool := false

/-- The command-line flags, after `flag.Parse`. -/
structure Flags where
  fMainMod : Bool
  fMod : String
  fRun : Bool
  fPrint : Bool
  fVersion : Bool
  fDownload : Bool
  fUpgrade : Bool
  fNoNet : Bool
  fDebug : Bool
deriving DecidableEq, Repr, Inhabited

/-- An `exec.Cmd`: argument vector, working directory and environment. -/
structure Cmd where
  args : List String
  dir : String
  env : List String
deriving DecidableEq, Repr, Inhabited

/-- The loop of `mainerr` a toolchain step is issued from. -/
inductive Phase where
  | localPhase
  | network
  | installPhase
deriving DecidableEq, Repr

/-- The three toolchain steps: `arg.get`, `arg.list` and `go install`. -/
inductive Step where
  | get
  | list
  | install
deriving DecidableEq, Repr

/-- The flags of `os.OpenFile` the program uses. -/
structure OpenMode where
  create : Bool
  wronly : Bool
  excl : Bool
deriving DecidableEq, Repr, Inhabited

/-- What the program does to the outside, in program order.  `call` is a
completed toolchain step of the spec at index `pkg` of `allPkgs`, with the
error the step returned (`none` for `nil`); `debug` is the trace line of
`run`, `report` a line of the non-main report (both on standard error),
`stdout` a chunk written to standard output; the rest are file operations. -/
inductive Event where
  | call (phase : Phase) (step : Step) (pkg : Nat) (cmd : Cmd) (err : Option String)
  | debug (s : String)
  | report (s : String)
  | stdout (s : String)
  | mkdirAll (path : String)
  | openRead (path : String)
  | remove (path : String)
  | openFile (path : String) (mode : OpenMode)
  | copy (dst : String)
  | removeAll (path : String)
deriving DecidableEq, Repr

/-! ## File system -/

/-- A node of the file system: a regular file with its bytes, or a directory. -/
inductive Node where
  | file (content : List Nat)
  | dir
deriving DecidableEq, Repr

/-- The file system as explicit state: the nodes that exist, by path. -/
abbrev FS := List (String × Node)

/-- The node at a path, if any. -/
def FS.find (fs : FS) (p : String) : Option Node := fs.lookup p

/-- The file system without the entry for `p`. -/
def FS.erase (fs : FS) (p : String) : FS := fs.filter (fun e => e.1 ≠ p)

/-- Is there an entry strictly below directory `p`? -/
def FS.hasChild (fs : FS) (p : String) : Bool := fs.any (fun e => HasPrefix e.1 (p ++ "/"))

/-- Go `os.MkdirAll`: fine when the path is a directory, creates it when it
is absent, fails when it is a regular file. -/
def FS.MkdirAll (fs : FS) (p : String) : Except String FS :=
  match fs.find p with
  | some Node.dir => .ok fs
  | some (Node.file _) => .error ("mkdir " ++ p ++ ": not a directory")
  | none => .ok ((p, Node.dir) :: fs)

/-- Go `os.Open`: the open handle is the node the path names at that time. -/
def FS.Open (fs : FS) (p : String) : Except String Node :=
  match fs.find p with
  | some n => .ok n
  | none => .error ("open " ++ p ++ ": no such file or directory")

/-- Go `os.Remove`: unlinks a file or an empty directory. -/
def FS.Remove (fs : FS) (p : String) : Except String FS :=
  match fs.find p with
  | none => .error ("remove " ++ p ++ ": no such file or directory")
  | some (Node.file _) => .ok (fs.erase p)
  | some Node.dir =>
    if fs.hasChild p then .error ("remove " ++ p ++ ": directory not empty")
    else .ok (fs.erase p)

/-- Go `os.OpenFile(p, mode, 0755)` for writing: with `O_CREATE|O_EXCL` an
existing path is an error; a directory cannot be opened for writing; an
existing file is opened as it is (no truncation); an absent file is created
empty when `O_CREATE` is set. -/
def FS.OpenFile (fs : FS) (p : String) (m : OpenMode) : Except String FS :=
  match fs.find p with
  | some n =>
    if m.create && m.excl then .error ("open " ++ p ++ ": file exists")
    else
      match n with
      | Node.dir => .error ("open " ++ p ++ ": is a directory")
      | Node.file _ => .ok fs
  | none =>
    if m.create then .ok ((p, Node.file []) :: fs)
    else .error ("open " ++ p ++ ": no such file or directory")

/-- Go `io.Copy(dest, src)` into a file opened at offset 0 without
truncation: the source bytes replace the first bytes of the destination and
whatever the destination had beyond them stays.  Reading a directory fails. -/
def FS.Copy (fs : FS) (dst : String) (src : Node) : Except String FS :=
  match src, fs.find dst with
  | Node.file bytes, some (Node.file old) =>
    .ok ((dst, Node.file (bytes ++ old.drop bytes.length)) :: fs.erase dst)
  | _, _ => .error "copy failed"

/-- Go `os.RemoveAll`: removes the path and everything below it. -/
def FS.RemoveAll (fs : FS) (p : String) : FS :=
  fs.filter (fun e => e.1 ≠ p && !HasPrefix e.1 (p ++ "/"))

/-! ## The external world -/

/-- The standard output of a `go list -json` run as the JSON decoder sees
it: the records it yields, followed by `io.EOF` (`decodeErr = none`) or by a
decoding error. -/
structure Stdout where
  records : List listPkg
  decodeErr : Option String
deriving DecidableEq, Repr, Inhabited

/-- What one run of a subprocess gives: the error of `cmd.Run` (`none` for
success), the captured standard error, the captured standard output, the
elapsed time as printed, and the file system it leaves. -/
structure RunResult where
  err : Option String
  stderr : String
  stdout : Stdout
  took : String
  fs : FS

/-- Everything outside the program.  `run` is the external toolchain: it
answers a command given all that happened before and the current file
system.  `findMainModule cwd` is the result of the upward walk from `cwd`
for a directory holding `go.mod` (`none`: the walk reached the root);
`userHomeDir` is the helper of that name, `tempDir k` the `k`-th
`ioutil.TempDir` call, `writeFile p` the error of writing the temporary
`go.mod` at `p`, `quote` the `%q` formatting verb, `EncodePath` the function
of that name of the `module` library, `exec` the error `syscall.Exec` returns
(`none`: the process image was replaced). -/
structure World where
  env : List (String × String)
  getwd : Except String String
  userHomeDir : String
  userCacheDir : Except String String
  findMainModule : String → Option String
  tempDir : Nat → Except String String
  writeFile : String → Option String
  quote : String → String
  EncodePath : String → Except String String
  run : List Event → Cmd → FS → RunResult
  exec : List Event → List String → Option String
  fs : FS

/-- Go `os.Getenv`: the value of the first entry for the key, else empty. -/
def Getenv (w : World) (key : String) : String := (w.env.lookup key).getD ""

/-- Go `os.Environ`: the entries as `KEY=VALUE` strings. -/
def Environ (w : World) : List String := w.env.map (fun e => e.1 ++ "=" ++ e.2)

/-! ## The program -/

/-- The values fixed before resolution starts: the flags as validated (with
`fMainMod` forced by `-mod`), the world, and the paths of the cache
discovery; `n` is the number of specs in `allPkgs`. -/
structure Ctx where
  f : Flags
  w : World
  cwd : String
  gopath : String
  modDlCache : String
  gobinCache : String
  runArgs : List String
  n : Nat

/-- The mutable state of `mainerr`.  `pkgs` holds the `arg` objects that
`allPkgs` points to, in order; `netPkgs` and `nonMain`, slices of pointers in
the program, are lists of indices into `pkgs`. -/
structure St where
  trace : List Event
  pkgs : List arg
  netPkgs : List Nat
  nonMain : List Nat
  fs : FS

/-- How `mainerr` ends: `nil`, an error, a panic, or (in run mode) the
replacement of the process image. -/
inductive Outcome where
  | ok
  | error (msg : String)
  | panic (msg : String)
  | exec (argv : List String) (env : List String)
deriving DecidableEq, Repr

/-- `buildEnv`: the environment for running go commands from gobin. -/
def buildEnv (w : World) (f : Flags) (proxy : String) : List String :=
  let env := Environ w ++ ["GO111MODULE=on"]
  let env := if proxy ≠ "" then env ++ [proxy] else env
  let goflags := Getenv w "GOFLAGS"
  let goflags := if f.fMainMod && f.fMod ≠ "" then goflags ++ " -mod=" ++ f.fMod else goflags
  env ++ ["GOFLAGS=" ++ goflags]

/-- The trace line `run` prints for a successful command, unless neither
`debug` nor `-debug` is set. -/
def debugLines (c : Ctx) (cmd : Cmd) (r : RunResult) : List Event :=
  if !debug && !c.f.fDebug then []
  else
    let goenv := cmd.env.filter (fun v => HasPrefix v "GO")
    [Event.debug ("+ cd " ++ cmd.dir ++ "; " ++ stringsJoin " " goenv ++ " "
      ++ stringsJoin " " cmd.args ++ " # took " ++ r.took ++ "\n" ++ r.stderr)]

/-- `run`: runs the command; a failure carries the command line, the error
and the captured standard error; under `-debug` a success is traced. -/
def run (c : Ctx) (st : St) (cmd : Cmd) : St × Option String × Stdout :=
  let r := c.w.run st.trace cmd st.fs
  match r.err with
  | some err =>
    ({ st with fs := r.fs },
      some ("failed to run " ++ stringsJoin " " cmd.args ++ ": " ++ err ++ "\n" ++ r.stderr),
      r.stdout)
  | none => ({ st with fs := r.fs, trace := st.trace ++ debugLines c cmd r }, none, r.stdout)

/-- The command of `arg.get`. -/
def getCmd (c : Ctx) (a : arg) (proxy : String) : Cmd :=
  { args := ["go", "get", "-d", a.patt], dir := a.wd, env := buildEnv c.w c.f proxy }

/-- The command of `arg.list`. -/
def listCmd (c : Ctx) (a : arg) (proxy : String) : Cmd :=
  { args := ["go", "list", "-json", a.pkgPatt], dir := a.wd, env := buildEnv c.w c.f proxy }

/-- `arg.get` on the spec at index `i`, issued from loop `ph`. -/
def arg.get (c : Ctx) (ph : Phase) (i : Nat) (proxy : String) (st : St) : St × Option String :=
  let cmd := getCmd c (st.pkgs.getD i default) proxy
  match run c st cmd with
  | (st1, err, _) =>
    ({ st1 with trace := st1.trace ++ [Event.call ph Step.get i cmd err] }, err)

/-- The decoding loop of `arg.list`: `recs` are the records the decoder
still yields and `fin` what follows them (`none` is `io.EOF`).  The spec is
updated in place, so the updates made before a decoding error remain. -/
def decodeLoop (a : arg) : List listPkg → Option String → arg × Option String
  | [], fin => (a, fin)
  | pkg :: rest, fin =>
    let a1 := { a with verPatt := pkg.Module.Version }
    if pkg.Name ≠ "main" then ({ a1 with resErr := some errNonMain }, none)
    else decodeLoop { a1 with mainPkgs := a1.mainPkgs ++ [pkg] } rest fin

/-- `arg.list` on the spec at index `i`, issued from loop `ph`. -/
def arg.list (c : Ctx) (ph : Phase) (i : Nat) (proxy : String) (st : St) : St × Option String :=
  let a := st.pkgs.getD i default
  let cmd := listCmd c a proxy
  match run c st cmd with
  | (st1, some err, _) =>
    ({ st1 with trace := st1.trace ++ [Event.call ph Step.list i cmd (some err)] }, some err)
  | (st1, none, out) =>
    match decodeLoop a out.records out.decodeErr with
    | (a1, err) =>
      ({ st1 with
          pkgs := st1.pkgs.set i a1,
          trace := st1.trace ++ [Event.call ph Step.list i cmd err] }, err)

/-- The tail of one iteration of a resolution loop, after `arg.list`
returned `nil`: a spec with `resErr` set is appended to `nonMain`. -/
def noteNonMain (i : Nat) (st : St) : St :=
  if ((st.pkgs.getD i default).resErr).isSome then { st with nonMain := st.nonMain ++ [i] }
  else st

/-- One iteration of the local resolution loop, from `arg.list` on. -/
def localList (c : Ctx) (useModCurr : Bool) (proxy : String) (i : Nat) (st : St) :
    St × Option Outcome :=
  match arg.list c Phase.localPhase i proxy st with
  | (st1, some err) =>
    if !useModCurr then (st1, some (Outcome.error err))
    else ({ st1 with netPkgs := st1.netPkgs ++ [i] }, none)
  | (st1, none) => (noteNonMain i st1, none)

/-- One iteration of the local resolution loop for the spec at index `i`;
`some o` when the iteration returns from `mainerr`. -/
def localStep (c : Ctx) (i : Nat) (st : St) : St × Option Outcome :=
  let pkg := st.pkgs.getD i default
  let proxy := "GOPROXY=file://" ++ c.modDlCache
  let useModCurr := c.f.fMainMod && pkg.verPatt == ""
  if !useModCurr then
    match arg.get c Phase.localPhase i proxy st with
    | (st1, some err) =>
      if c.f.fNoNet then (st1, some (Outcome.error err))
      else ({ st1 with netPkgs := st1.netPkgs ++ [i] }, none)
    | (st1, none) => localList c useModCurr proxy i st1
  else localList c useModCurr proxy i st

/-- A `for ... range` loop over specs, by index, whose body may return from
`mainerr` (`some o`). -/
def rangeLoop (body : Nat → St → St × Option Outcome) : List Nat → St → St × Option Outcome
  | [], st => (st, none)
  | i :: is, st =>
    match body i st with
    | (st1, some o) => (st1, some o)
    | (st1, none) => rangeLoop body is st1

/-- The local resolution loop over the given indices of `allPkgs`. -/
def localLoop (c : Ctx) : List Nat → St → St × Option Outcome := rangeLoop (localStep c)

/-- One iteration of the network resolution loop for the spec at index `i`. -/
def netStep (c : Ctx) (i : Nat) (st : St) : St × Option Outcome :=
  let pkg := st.pkgs.getD i default
  let proxy := Getenv c.w "GOPROXY"
  let useModCurr := c.f.fMainMod && pkg.verPatt == ""
  let fromList (st0 : St) : St × Option Outcome :=
    match arg.list c Phase.network i proxy st0 with
    | (st1, some err) => (st1, some (Outcome.error err))
    | (st1, none) => (noteNonMain i st1, none)
  if !useModCurr then
    match arg.get c Phase.network i proxy st with
    | (st1, some err) => (st1, some (Outcome.error err))
    | (st1, none) => fromList st1
  else fromList st

/-- The network resolution loop over the queue. -/
def netLoop (c : Ctx) : List Nat → St → St × Option Outcome := rangeLoop (netStep c)

/-- Both resolution phases: the local loop (or, under `-u`, the queueing of
every spec), the check of the queue under `-nonet`, and the network loop. -/
def resolve (c : Ctx) (st : St) : St × Option Outcome :=
  let afterLocal : St × Option Outcome :=
    if !c.f.fUpgrade then localLoop c (List.range c.n) st
    else ({ st with netPkgs := List.range c.n }, none)
  match afterLocal with
  | (st1, some o) => (st1, some o)
  | (st1, none) =>
    if c.f.fNoNet && st1.netPkgs.length > 0 then
      (st1, some (Outcome.panic "invariant on netPkgs failed"))
    else netLoop c st1.netPkgs st1

/-- The line of the non-main report for one spec. -/
def reportLine (a : arg) : String :=
  a.pkgPatt ++ "@" ++ a.verPatt ++ ": " ++ (a.resErr.getD "<nil>") ++ "\n"

/-- The report of the specs in `nonMain` and the error that follows it;
`none` when `nonMain` is empty. -/
def reportNonMain (st : St) : St × Option Outcome :=
  if st.nonMain.length > 0 then
    let lines := st.nonMain.map (fun i => Event.report (reportLine (st.pkgs.getD i default)))
    let s := if st.nonMain.length > 1 then "s" else ""
    ({ st with trace := st.trace ++ lines },
      some (Outcome.error ("failed to resolve module-based main package" ++ s)))
  else (st, none)

/-- The import path of the tool itself. -/
def selfImportPath : String := "github.com/myitcv/gobin"

/-- The relative install directory of a resolved main package (`mainrel`),
from its module path, module version and import path. -/
def mainrel (w : World) (mp : listPkg) : Except String String :=
  match w.EncodePath (FromSlash mp.Module.Path) with
  | .error err => .error ("failed to encode module path " ++ mp.Module.Path ++ ": " ++ err)
  | .ok emp =>
    let md := if mp.Module.Version ≠ "" then filepathJoin [emp, "@v", mp.Module.Version] else emp
    match w.EncodePath (FromSlash mp.ImportPath) with
    | .error err =>
      .error ("failed to encode package relative path " ++ mp.ImportPath ++ ": " ++ err)
    | .ok epp => .ok (filepathJoin [md, epp])

/-- The `os.Remove` whose error the program ignores. -/
def removeIgnoringError (st : St) (p : String) : St :=
  { st with
      trace := st.trace ++ [Event.remove p],
      fs := match st.fs.Remove p with
        | .ok fs1 => fs1
        | .error _ => st.fs }

/-- The user-visible install directory: `$GOBIN`, else `bin` under GOPATH. -/
def installBinDir (c : Ctx) : String :=
  let installBin := Getenv c.w "GOBIN"
  if installBin = "" then filepathJoin [c.gopath, "bin"] else installBin

/-- The destination of the copy: the base name of the import path in the
install directory. -/
def installDest (c : Ctx) (mp : listPkg) : String :=
  filepathJoin [installBinDir c, pathBase mp.ImportPath]

/-- The default (install) mode of the mode switch: copy the built artifact
at `target` to the install directory under its base name. -/
def installCopy (c : Ctx) (mp : listPkg) (target : String) (st : St) : St × Option Outcome :=
  let installBin := installBinDir c
  let st := { st with trace := st.trace ++ [Event.mkdirAll installBin] }
  match st.fs.MkdirAll installBin with
  | .error err => (st, some (Outcome.error ("failed to mkdir " ++ installBin ++ ": " ++ err)))
  | .ok fs1 =>
    let st := { st with fs := fs1, trace := st.trace ++ [Event.openRead target] }
    match st.fs.Open target with
    | .error err => (st, some (Outcome.error ("failed to open " ++ target ++ ": " ++ err)))
    | .ok src =>
      let bin := installDest c mp
      let openMode : OpenMode := { create := true, wronly := true, excl := false }
      let self : Bool := mp.ImportPath = selfImportPath
      let st := if self then removeIgnoringError st bin else st
      let openMode := if self then { openMode with excl := true } else openMode
      let st := { st with trace := st.trace ++ [Event.openFile bin openMode] }
      match st.fs.OpenFile bin openMode with
      | .error err =>
        (st, some (Outcome.error ("failed to open " ++ bin ++ " for writing: " ++ err)))
      | .ok fs2 =>
        let st := { st with fs := fs2, trace := st.trace ++ [Event.copy bin] }
        match st.fs.Copy bin src with
        | .error _ =>
          (st, some (Outcome.error ("failed to copy " ++ target ++ " to " ++ bin)))
        | .ok fs3 =>
          ({ st with
              fs := fs3,
              trace := st.trace ++ [Event.stdout ("Installed " ++ mp.ImportPath ++ "@"
                ++ mp.Module.Version ++ " to " ++ bin ++ "\n")] }, none)

/-- The body of the install loop for one resolved main package `mp` of the
spec at index `i`. -/
def installOne (c : Ctx) (i : Nat) (mp : listPkg) (st : St) : St × Option Outcome :=
  match mainrel c.w mp with
  | .error err => (st, some (Outcome.error err))
  | .ok rel =>
    let gobin := filepathJoin [c.gobinCache, rel]
    let target := filepathJoin [gobin, pathBase mp.ImportPath]
    let st := if mp.ImportPath = selfImportPath then removeIgnoringError st target else st
    let proxy := "file://" ++ c.modDlCache
    let installCmd : Cmd :=
      { args := ["go", "install", mp.ImportPath],
        dir := (st.pkgs.getD i default).wd,
        env := buildEnv c.w c.f ("GOPROXY=" ++ proxy) ++ ["GOBIN=" ++ gobin] }
    match run c st installCmd with
    | (st1, some err, _) =>
      ({ st1 with trace := st1.trace ++ [Event.call Phase.installPhase Step.install i installCmd
          (some err)] }, some (Outcome.error err))
    | (st1, none, _) =>
      let st1 := { st1 with
        trace := st1.trace ++ [Event.call Phase.installPhase Step.install i installCmd none] }
      if c.f.fDownload then (st1, none)
      else if c.f.fPrint then
        ({ st1 with trace := st1.trace ++ [Event.stdout (target ++ "\n")] }, none)
      else if c.f.fVersion then
        ({ st1 with trace := st1.trace ++ [Event.stdout (mp.Module.Path ++ " "
            ++ mp.Module.Version ++ "\n")] }, none)
      else if c.f.fRun then
        let argv := [target] ++ c.runArgs
        match c.w.exec st1.trace argv with
        | some err => (st1, some (Outcome.error ("failed to exec " ++ target ++ ": " ++ err)))
        | none => (st1, some (Outcome.exec argv (Environ c.w)))
      else installCopy c mp target st1

/-- The inner install loop: the main packages of the spec at index `i`. -/
def installPkgs (c : Ctx) (i : Nat) : List listPkg → St → St × Option Outcome
  | [], st => (st, none)
  | mp :: mps, st =>
    match installOne c i mp st with
    | (st1, some o) => (st1, some o)
    | (st1, none) => installPkgs c i mps st1

/-- The outer install loop over the given indices of `allPkgs`. -/
def installLoop (c : Ctx) : List Nat → St → St × Option Outcome :=
  rangeLoop (fun i st => installPkgs c i (st.pkgs.getD i default).mainPkgs st)

/-- The count `comm` of the mode flags that are set. -/
def commCount (f : Flags) : Nat :=
  (if f.fRun then 1 else 0) + (if f.fPrint then 1 else 0)
    + (if f.fDownload then 1 else 0) + (if f.fVersion then 1 else 0)

/-- The flags after the handling of `-mod`: a valid value forces `fMainMod`. -/
def forceMainMod (f : Flags) : Flags :=
  if f.fMod ≠ "" then { f with fMainMod := true } else f

/-- The check of the flags at the head of `mainerr`; gives the flags with
`fMainMod` forced when `-mod` is given. -/
def checkFlags (w : World) (f : Flags) : Except String Flags :=
  if commCount f > 1 then .error "the -run, -p, -v and -d flags are mutually exclusive"
  else if f.fMod ≠ "" ∧ ¬ (f.fMod = "readonly" ∨ f.fMod = "vendor") then
    .error ("-mod has invalid value " ++ w.quote f.fMod)
  else if (forceMainMod f).fUpgrade && (forceMainMod f).fNoNet then
    .error "the -n and -g flags are mutually exclusive"
  else .ok (forceMainMod f)

/-- The working directory and the cache path discovery: the effective
GOPATH, the module download cache and the gobin cache. -/
def discover (w : World) (f : Flags) : Except String (String × String × String × String) :=
  match w.getwd with
  | .error err => .error ("failed to get working directory: " ++ err)
  | .ok cwd =>
    let gopathEnv := Getenv w "GOPATH"
    let gopathR : Except String String :=
      if gopathEnv ≠ "" then .ok (String.mk (cutFirst ':' gopathEnv.data).1)
      else if w.userHomeDir = "" then .error "failed to determine user home directory"
      else .ok (filepathJoin [w.userHomeDir, "go"])
    match gopathR with
    | .error err => .error err
    | .ok gopath =>
      let modCache := filepathJoin [gopath, "pkg", "mod"]
      let modDlCache := filepathJoin [modCache, "cache", "download"]
      if f.fMainMod then
        match w.findMainModule cwd with
        | none => .error "could not find main module"
        | some md => .ok (cwd, gopath, modDlCache, filepathJoin [md, ".gobincache"])
      else
        match w.userCacheDir with
        | .error err => .error ("failed to determine user cache dir: " ++ err)
        | .ok ucd => .ok (cwd, gopath, modDlCache, filepathJoin [ucd, "gobin"])

/-- The spec of one command-line pattern: the pattern is split at the first
`@` into the package part and the version part. -/
def mkArg (patt wd : String) : arg :=
  let parts := SplitN2 patt
  let a : arg :=
    { patt := patt, pkgPatt := parts.getD 0 "", verPatt := "", mainPkgs := [], wd := "",
      resErr := none, target := "" }
  let a := if parts.length = 2 then { a with verPatt := parts.getD 1 "" } else a
  { a with wd := wd }

/-- The loop that prepares `allPkgs`; gives the temporary directories made
so far together with the specs or the error. -/
def prepareLoop (w : World) (f : Flags) (cwd : String) :
    List String → List arg → List String → List String × Except String (List arg)
  | [], allPkgs, tmpDirs => (tmpDirs, .ok allPkgs)
  | patt :: rest, allPkgs, tmpDirs =>
    if f.fMainMod then prepareLoop w f cwd rest (allPkgs ++ [mkArg patt cwd]) tmpDirs
    else
      match w.tempDir tmpDirs.length with
      | .error err => (tmpDirs, .error ("failed to create temp dir: " ++ err))
      | .ok td =>
        let tmpDirs := tmpDirs ++ [td]
        match w.writeFile (filepathJoin [td, "go.mod"]) with
        | some err => (tmpDirs, .error ("failed to initialise temp Go module: " ++ err))
        | none => prepareLoop w f cwd rest (allPkgs ++ [mkArg patt td]) tmpDirs

/-- How a run of `mainerr` ends, with the final state. -/
structure Result where
  outcome : Outcome
  trace : List Event
  pkgs : List arg
  netPkgs : List Nat
  nonMain : List Nat
  fs : FS

/-- The deferred removal of the temporary directories, which runs when
`mainerr` returns or panics (not when the process image is replaced). -/
def cleanup (tmpDirs : List String) (o : Outcome) (st : St) : Result :=
  match o with
  | Outcome.exec argv env =>
    { outcome := Outcome.exec argv env, trace := st.trace, pkgs := st.pkgs,
      netPkgs := st.netPkgs, nonMain := st.nonMain, fs := st.fs }
  | o =>
    { outcome := o, trace := st.trace ++ tmpDirs.map Event.removeAll, pkgs := st.pkgs,
      netPkgs := st.netPkgs, nonMain := st.nonMain,
      fs := tmpDirs.foldl FS.RemoveAll st.fs }

/-- The part of `mainerr` after `allPkgs` is prepared: resolution, the
non-main report, the install loop. -/
def body (c : Ctx) (st : St) : St × Outcome :=
  match resolve c st with
  | (st1, some o) => (st1, o)
  | (st1, none) =>
    match reportNonMain st1 with
    | (st2, some o) => (st2, o)
    | (st2, none) =>
      match installLoop c (List.range c.n) st2 with
      | (st3, some o) => (st3, o)
      | (st3, none) => (st3, Outcome.ok)

/-- The state before any step has run. -/
def St.init (w : World) (pkgs : List arg) : St :=
  { trace := [], pkgs := pkgs, netPkgs := [], nonMain := [], fs := w.fs }

/-- The part of `mainerr` before resolution: the check of the flags, the
cache path discovery and the preparation of `allPkgs`.  Gives the result of
the run when it ends there, else the context, the temporary directories and
the specs. -/
def setup (f : Flags) (args : List String) (w : World) :
    Except Result (Ctx × List String × List arg) :=
  let fail (msg : String) : Result :=
    { outcome := Outcome.error msg, trace := [], pkgs := [], netPkgs := [], nonMain := [],
      fs := w.fs }
  match checkFlags w f with
  | .error msg => .error (fail msg)
  | .ok f1 =>
    match discover w f1 with
    | .error msg => .error (fail msg)
    | .ok (cwd, gopath, modDlCache, gobinCache) =>
      if args.length = 0 then .error (fail "need to provide at least one main package")
      else
        let pkgPatts := if f1.fRun && args.length > 1 then args.take 1 else args
        let runArgs := if f1.fRun && args.length > 1 then args.drop 1 else []
        match prepareLoop w f1 cwd pkgPatts [] [] with
        | (tmpDirs, .error msg) => .error (cleanup tmpDirs (Outcome.error msg) (St.init w []))
        | (tmpDirs, .ok allPkgs) =>
          .ok ({ f := f1, w := w, cwd := cwd, gopath := gopath, modDlCache := modDlCache,
                 gobinCache := gobinCache, runArgs := runArgs, n := allPkgs.length },
               tmpDirs, allPkgs)

/-- `mainerr`, for the parsed flags `f` and the positional arguments `args`. -/
def mainerr (f : Flags) (args : List String) (w : World) : Result :=
  match setup f args w with
  | .error r => r
  | .ok (c, tmpDirs, allPkgs) =>
    match body c (St.init w allPkgs) with
    | (st, o) => cleanup tmpDirs o st

/-- `main1`: the exit code, when `mainerr` returns (`none` otherwise). -/
def main1 (f : Flags) (args : List String) (w : World) : Option Nat :=
  match (mainerr f args w).outcome with
  | Outcome.ok => some 0
  | Outcome.error _ => some 1
  | _ => none

/-! ## Reading the trace -/

/-- A `get` or `list` step issued from the network resolution loop. -/
def Event.isNetworkCall : Event → Bool
  | Event.call Phase.network _ _ _ _ => true
  | _ => false

/-- A `get` or `list` step of the local resolution loop that returned an error. -/
def Event.isFailedLocal : Event → Bool
  | Event.call Phase.localPhase Step.get _ _ (some _) => true
  | Event.call Phase.localPhase Step.list _ _ (some _) => true
  | _ => false

/-- A `go install` invocation. -/
def Event.isInstallCall : Event → Bool
  | Event.call _ Step.install _ _ _ => true
  | Event.call Phase.installPhase _ _ _ _ => true
  | _ => false

/-- The index of the spec an `arg.list` step resolved (the step returned `nil`). -/
def Event.resolved : Event → Option Nat
  | Event.call _ Step.list i _ none => some i
  | _ => none

/-- The specs in the order they were resolved: the indices of the `arg.list`
steps that returned `nil`, in trace order. -/
def resolvedOrder (t : List Event) : List Nat := t.filterMap Event.resolved

/-- The line of a non-main report event. -/
def Event.reported : Event → Option String
  | Event.report s => some s
  | _ => none

/-- The lines of the non-main report, in the order written. -/
def reports (t : List Event) : List String := t.filterMap Event.reported

/-- A step of one of the two resolution loops. -/
def Event.isResolveStep : Event → Bool
  | Event.call Phase.localPhase _ _ _ _ => true
  | Event.call Phase.network _ _ _ _ => true
  | _ => false

/-- Is `resErr` set in the spec at index `i`? -/
def resErrSet (pkgs : List arg) (i : Nat) : Bool := ((pkgs.getD i default).resErr).isSome

/-- The events a resolution loop of phase `ph` adds to the trace: trace
lines of `run`, and `get` and `list` steps of that phase. -/
def Event.inPhase (ph : Phase) : Event → Bool
  | Event.debug _ => true
  | Event.call ph1 Step.get _ _ _ => decide (ph1 = ph)
  | Event.call ph1 Step.list _ _ _ => decide (ph1 = ph)
  | _ => false

/-- What one iteration of a resolution loop of phase `ph` does for the spec
at index `i`, from state `st` to state `st1` with result `o`: `ok` says that
`arg.list` returned `nil`, `queued` that the spec was appended to `netPkgs`. -/
def StepFacts (ph : Phase) (i : Nat) (st st1 : St) (o : Option Outcome) : Prop :=
  ∃ (ok queued : Bool) (evs : List Event),
    st1.trace = st.trace ++ evs
    ∧ (∀ e ∈ evs, e.inPhase ph = true)
    ∧ evs.filterMap Event.resolved = (if ok then [i] else [])
    ∧ st1.netPkgs = st.netPkgs ++ (if queued then [i] else [])
    ∧ st1.nonMain = st.nonMain ++ (if ok && resErrSet st1.pkgs i then [i] else [])
    ∧ (ok = false → (st1.pkgs.getD i default).resErr = (st.pkgs.getD i default).resErr)
    ∧ (ok = true → o = none ∧ queued = false)
    ∧ (queued = true → o = none ∧ ph = Phase.localPhase)
    ∧ (o = none ∨ ∃ msg, o = some (Outcome.error msg))
    ∧ ((∃ e ∈ evs, e.isFailedLocal = true) → queued = true ∨ o ≠ none)
    ∧ (ph = Phase.network → ok = true ∨ o ≠ none)
    ∧ st1.pkgs.length = st.pkgs.length
    ∧ (∀ j, j ≠ i → st1.pkgs.getD j default = st.pkgs.getD j default)
    ∧ (∀ j, (st1.pkgs.getD j default).resErr = (st.pkgs.getD j default).resErr
        ∨ (st1.pkgs.getD j default).resErr = some errNonMain)

/-- What a resolution loop of phase `ph` over the indices `is` does, from
state `st` to state `st1` with result `o`: `rs` are the specs resolved and
`qs` the specs queued, in order. -/
def LoopFacts (ph : Phase) (is : List Nat) (st st1 : St) (o : Option Outcome) : Prop :=
  ∃ (rs qs : List Nat) (evs : List Event),
    st1.trace = st.trace ++ evs
    ∧ (∀ e ∈ evs, e.inPhase ph = true)
    ∧ evs.filterMap Event.resolved = rs
    ∧ rs.Sublist is
    ∧ st1.netPkgs = st.netPkgs ++ qs
    ∧ qs.Sublist is
    ∧ (∀ j ∈ qs, j ∉ rs)
    ∧ (qs ≠ [] → ph = Phase.localPhase)
    ∧ st1.nonMain = st.nonMain ++ rs.filter (resErrSet st1.pkgs)
    ∧ (∀ j, j ∉ rs → (st1.pkgs.getD j default).resErr = (st.pkgs.getD j default).resErr)
    ∧ (o = none ∨ ∃ msg, o = some (Outcome.error msg))
    ∧ ((∃ e ∈ evs, e.isFailedLocal = true) → qs ≠ [] ∨ o ≠ none)
    ∧ (ph = Phase.network → o = none → rs = is)
    ∧ st1.pkgs.length = st.pkgs.length
    ∧ (∀ j, j ∉ is → st1.pkgs.getD j default = st.pkgs.getD j default)
    ∧ (∀ j, (st1.pkgs.getD j default).resErr = (st.pkgs.getD j default).resErr
        ∨ (st1.pkgs.getD j default).resErr = some errNonMain)

/-- From `st` to `st1` the trace only gained events that are not steps of a
resolution loop. -/
def Quiet (st st1 : St) : Prop :=
  ∀ e ∈ st1.trace, e ∈ st.trace ∨ e.isResolveStep = false

/-- A plain element of a clean path: not empty, not `.`, not `..` and not
the marker `@v`. -/
def isPlainElem (e : List Char) : Bool :=
  decide (e ≠ []) && decide (e ≠ ['.']) && decide (e ≠ ['.', '.']) && decide (e ≠ ['@', 'v'])

/-- A clean relative path: every element between slashes is plain. -/
def isPlainPath (s : String) : Bool := (splitSlash s.data).all isPlainElem

/-- A version that is a single path element: not empty, without a slash,
and neither `.` nor `..`. -/
def isVersionElem (v : String) : Bool :=
  decide (v.data ≠ []) && decide ('/' ∉ v.data) && decide (v.data ≠ ['.'])
    && decide (v.data ≠ ['.', '.'])

/-! ## Concrete worlds -/

/-- The escape of upper-case letters: `!` followed by the lower-case letter. -/
def escapeUpper : List Char → List Char
  | [] => []
  | c :: cs =>
    if 'A'.toNat ≤ c.toNat ∧ c.toNat ≤ 'Z'.toNat then
      '!' :: Char.ofNat (c.toNat + 32) :: escapeUpper cs
    else c :: escapeUpper cs

/-- Modelled from the spec: `module.EncodePath`, a function of the external
`go-internal/module` library whose source is not part of this repository.
It is the case-folding escape of the cache layout: an upper-case letter is
escaped as `!` followed by its lower-case form, and a string holding `!` or
a non-ASCII character is refused.  The validation of module paths done by
the library is not modelled; the paths used below are valid module paths. -/
def EncodePathModel (s : String) : Except String String :=
  if s.data.any (fun c => c = '!' || 128 ≤ c.toNat) then
    .error "internal error: inconsistency in EncodePath"
  else .ok (String.mk (escapeUpper s.data))

/-- No flag set. -/
def noFlags : Flags :=
  { fMainMod := false, fMod := "", fRun := false, fPrint := false, fVersion := false,
    fDownload := false, fUpgrade := false, fNoNet := false, fDebug := false }

/-- A run of a subprocess that succeeds, prints nothing and leaves the file
system as it is. -/
def okRun (fs : FS) : RunResult :=
  { err := none, stderr := "", stdout := { records := [], decodeErr := none }, took := "0s",
    fs := fs }

/-- A world with GOPATH `/go`, the working directory `/home/u/proj` holding
`go.mod`, the given ambient GOPROXY entries, the given toolchain and the
given file system. -/
def sampleWorld (proxyEnv : List (String × String))
    (run : List Event → Cmd → FS → RunResult) (fs : FS) : World :=
  { env := ("GOPATH", "/go") :: proxyEnv,
    getwd := .ok "/home/u/proj",
    userHomeDir := "/home/u",
    userCacheDir := .ok "/home/u/.cache",
    findMainModule := fun _ => some "/home/u/proj",
    tempDir := fun _ => .ok "/tmp/gobin1",
    writeFile := fun _ => none,
    quote := fun s => "\"" ++ s ++ "\"",
    EncodePath := EncodePathModel,
    run := run,
    exec := fun _ _ => none,
    fs := fs }

/-- A toolchain whose every `go list` fails and whose other commands succeed. -/
def listFails : List Event → Cmd → FS → RunResult := fun _ cmd fs =>
  if cmd.args.getD 1 "" = "list" then
    { okRun fs with err := some "exit status 1", stderr := "cannot find module" }
  else okRun fs

/-- A toolchain that misses the module in the local download cache: `go get`
fails when the proxy is the `file://` download cache and succeeds otherwise;
`go list` prints the given records. -/
def localMisses (recs : List listPkg) : List Event → Cmd → FS → RunResult := fun _ cmd fs =>
  if cmd.args.getD 1 "" = "get" then
    if cmd.env.any (fun v => HasPrefix v "GOPROXY=file://") then
      { okRun fs with err := some "exit status 1", stderr := "module lookup disabled" }
    else okRun fs
  else if cmd.args.getD 1 "" = "list" then
    { okRun fs with stdout := { records := recs, decodeErr := none } }
  else okRun fs

/-- A toolchain whose every command succeeds and whose `go list` prints the
records the table gives for the package pattern. -/
def listFor (tbl : List (String × List listPkg)) : List Event → Cmd → FS → RunResult :=
  fun _ cmd fs =>
    if cmd.args.getD 1 "" = "list" then
      { okRun fs with
          stdout := { records := (tbl.lookup (cmd.args.getD 3 "")).getD [], decodeErr := none } }
    else okRun fs

/-- A toolchain whose every command succeeds and whose `go list` prints the
given records. -/
def listGives (recs : List listPkg) : List Event → Cmd → FS → RunResult := fun _ cmd fs =>
  if cmd.args.getD 1 "" = "list" then
    { okRun fs with stdout := { records := recs, decodeErr := none } }
  else okRun fs

/-- A toolchain whose every command succeeds, whose `go list` prints the
given records and whose `go install` writes the given bytes at `artifact`. -/
def builds (recs : List listPkg) (artifact : String) (bytes : List Nat) :
    List Event → Cmd → FS → RunResult := fun _ cmd fs =>
  if cmd.args.getD 1 "" = "list" then
    { okRun fs with stdout := { records := recs, decodeErr := none } }
  else if cmd.args.getD 1 "" = "install" then
    { okRun fs with fs := (artifact, Node.file bytes) :: fs.erase artifact }
  else okRun fs

/-- The package record of a package named `name` at import path `imp` in
module `modPath` at version `ver`. -/
def mkPkg (imp name modPath ver : String) : listPkg :=
  { ImportPath := imp, Name := name, Dir := "", Module := { Path := modPath, Dir := "", Version := ver } }

/-- A context over the given world with the sample paths. -/
def sampleCtx (f : Flags) (w : World) (n : Nat) : Ctx :=
  { f := f, w := w, cwd := "/home/u/proj", gopath := "/go",
    modDlCache := "/go/pkg/mod/cache/download", gobinCache := "/home/u/.cache/gobin",
    runArgs := [], n := n }

/-! ## Spec construction (C8) -/

theorem cutFirst_fst_not_mem (sep : Char) (l : List Char) : sep ∉ (cutFirst sep l).1 := by
  induction l with
  | nil => simp [cutFirst]
  | cons c cs ih =>
    by_cases h : c = sep
    · simp [cutFirst, h]
    · simp only [cutFirst, h, if_false, List.mem_cons, not_or]
      exact ⟨fun h2 => h h2.symm, ih⟩

theorem cutFirst_none (sep : Char) (l : List Char) (h : sep ∉ l) :
    cutFirst sep l = (l, none) := by
  induction l with
  | nil => simp [cutFirst]
  | cons c cs ih =>
    simp only [List.mem_cons, not_or] at h
    have hc : ¬ c = sep := fun h2 => h.1 h2.symm
    simp [cutFirst, hc, ih h.2]

theorem cutFirst_some (sep : Char) (l : List Char) (h : sep ∈ l) :
    ∃ b, (cutFirst sep l).2 = some b ∧ l = (cutFirst sep l).1 ++ sep :: b := by
  induction l with
  | nil => simp at h
  | cons c cs ih =>
    by_cases hc : c = sep
    · exact ⟨cs, by simp [cutFirst, hc]⟩
    · have hm : sep ∈ cs := by
        rcases List.mem_cons.mp h with h1 | h1
        · exact absurd h1.symm hc
        · exact h1
      obtain ⟨b, hb, hl⟩ := ih hm
      refine ⟨b, by simp [cutFirst, hc, hb], ?_⟩
      simp only [cutFirst, hc, if_false, List.cons_append]
      rw [← hl]

theorem SplitN2_of_mem (p : String) (h : '@' ∈ p.data) :
    ∃ b, SplitN2 p = [String.mk (cutFirst '@' p.data).1, String.mk b]
      ∧ p.data = (cutFirst '@' p.data).1 ++ '@' :: b := by
  obtain ⟨b, hb, hl⟩ := cutFirst_some '@' p.data h
  refine ⟨b, ?_, hl⟩
  unfold SplitN2
  have : cutFirst '@' p.data = ((cutFirst '@' p.data).1, some b) := by
    rw [← hb]
  rw [this]

theorem SplitN2_of_not_mem (p : String) (h : '@' ∉ p.data) : SplitN2 p = [p] := by
  unfold SplitN2
  rw [cutFirst_none '@' p.data h]

/-- C8: the spec construction splits the pattern at the first `@`.  The
package part holds no `@`; when the pattern holds an `@` the pattern is the
package part, an `@` and the version part, and otherwise the package part is
the whole pattern and the version part is empty; and rejoining the parts of
the split with `@` gives the pattern back (for every pattern, so also for
one with at most one `@`). -/
theorem C8_split_at_first_at (p wd : String) :
    '@' ∉ (mkArg p wd).pkgPatt.data
    ∧ p = (if '@' ∈ p.data then (mkArg p wd).pkgPatt ++ "@" ++ (mkArg p wd).verPatt
           else (mkArg p wd).pkgPatt)
    ∧ ('@' ∈ p.data ∨ (mkArg p wd).verPatt = "")
    ∧ stringsJoin "@" (SplitN2 p) = p := by
  by_cases h : '@' ∈ p.data
  · obtain ⟨b, hs, hl⟩ := SplitN2_of_mem p h
    have hp : (mkArg p wd).pkgPatt = String.mk (cutFirst '@' p.data).1 := by
      simp [mkArg, hs]
    have hv : (mkArg p wd).verPatt = String.mk b := by
      simp [mkArg, hs]
    have hjoin : String.mk (cutFirst '@' p.data).1 ++ "@" ++ String.mk b = p := by
      apply String.ext
      simp only [String.data_append]
      rw [List.append_assoc]
      exact hl.symm
    refine ⟨?_, ?_, Or.inl h, ?_⟩
    · rw [hp]
      exact cutFirst_fst_not_mem '@' p.data
    · rw [if_pos h, hp, hv]
      exact hjoin.symm
    · rw [hs]
      simp only [stringsJoin]
      exact hjoin
  · have hs := SplitN2_of_not_mem p h
    have hp : (mkArg p wd).pkgPatt = p := by simp [mkArg, hs]
    have hv : (mkArg p wd).verPatt = "" := by simp [mkArg, hs]
    refine ⟨?_, ?_, Or.inr hv, ?_⟩
    · rw [hp]
      exact h
    · rw [if_neg h, hp]
    · rw [hs]
      simp [stringsJoin]

/-! ## The query step (C5) -/

theorem decodeLoop_mainPkgs (recs : List listPkg) (fin : Option String) (a : arg) :
    (decodeLoop a recs fin).1.mainPkgs
      = a.mainPkgs ++ recs.takeWhile (fun p => decide (p.Name = "main")) := by
  induction recs generalizing a with
  | nil => simp [decodeLoop]
  | cons p rest ih =>
    by_cases h : p.Name = "main"
    · simp [decodeLoop, h, ih, List.takeWhile]
    · simp [decodeLoop, h, List.takeWhile]

theorem decodeLoop_all_main (recs : List listPkg) (fin : Option String) (a : arg)
    (h : ∀ p ∈ recs, p.Name = "main") :
    (decodeLoop a recs fin).1.resErr = a.resErr ∧ (decodeLoop a recs fin).2 = fin := by
  induction recs generalizing a with
  | nil => simp [decodeLoop]
  | cons p rest ih =>
    have hp : p.Name = "main" := h p (List.mem_cons_self _ _)
    have hrest : ∀ q ∈ rest, q.Name = "main" := fun q hq => h q (List.mem_cons_of_mem _ hq)
    simp only [decodeLoop, hp, ne_eq, not_true_eq_false, if_false]
    exact ih _ hrest

theorem decodeLoop_some_nonMain (recs : List listPkg) (fin : Option String) (a : arg)
    (h : ∃ p ∈ recs, p.Name ≠ "main") :
    (decodeLoop a recs fin).1.resErr = some errNonMain ∧ (decodeLoop a recs fin).2 = none := by
  induction recs generalizing a with
  | nil => simp at h
  | cons p rest ih =>
    by_cases hp : p.Name = "main"
    · obtain ⟨q, hq, hqn⟩ := h
      have hrest : ∃ q ∈ rest, q.Name ≠ "main" := by
        rcases List.mem_cons.mp hq with h1 | h1
        · exact absurd (h1 ▸ hp) hqn
        · exact ⟨q, h1, hqn⟩
      simp only [decodeLoop, hp, ne_eq, not_true_eq_false, if_false]
      exact ih _ hrest
    · simp [decodeLoop, hp]

theorem run_of_err (c : Ctx) (st : St) (cmd : Cmd) (err : String)
    (h : (c.w.run st.trace cmd st.fs).err = some err) :
    run c st cmd = ({ st with fs := (c.w.run st.trace cmd st.fs).fs },
      some ("failed to run " ++ stringsJoin " " cmd.args ++ ": " ++ err ++ "\n"
        ++ (c.w.run st.trace cmd st.fs).stderr),
      (c.w.run st.trace cmd st.fs).stdout) := by
  simp only [run, h]

theorem run_of_ok (c : Ctx) (st : St) (cmd : Cmd)
    (h : (c.w.run st.trace cmd st.fs).err = none) :
    run c st cmd = ({ st with
        fs := (c.w.run st.trace cmd st.fs).fs,
        trace := st.trace ++ debugLines c cmd (c.w.run st.trace cmd st.fs) },
      none, (c.w.run st.trace cmd st.fs).stdout) := by
  simp only [run, h]

/-- The state `run` leaves: the file system of the subprocess and, on
success, the trace line. -/
theorem run_fst (c : Ctx) (st : St) (cmd : Cmd) :
    ∃ dbg, (∀ e ∈ dbg, ∃ s, e = Event.debug s)
      ∧ (run c st cmd).1 = { st with fs := (c.w.run st.trace cmd st.fs).fs, trace := st.trace ++ dbg } := by
  cases h : (c.w.run st.trace cmd st.fs).err with
  | some err =>
    refine ⟨[], by simp, ?_⟩
    rw [run_of_err c st cmd err h]
    simp
  | none =>
    refine ⟨debugLines c cmd (c.w.run st.trace cmd st.fs), ?_, ?_⟩
    · intro e he
      unfold debugLines at he
      split at he
      · simp at he
      · simp at he
        exact ⟨_, he⟩
    · rw [run_of_ok c st cmd h]

theorem run_stdout (c : Ctx) (st : St) (cmd : Cmd) :
    (run c st cmd).2.2 = (c.w.run st.trace cmd st.fs).stdout := by
  cases h : (c.w.run st.trace cmd st.fs).err with
  | some err => rw [run_of_err c st cmd err h]
  | none => rw [run_of_ok c st cmd h]

/-- The shape of `arg.get`: the state of `run` with the call appended. -/
theorem get_eq (c : Ctx) (ph : Phase) (i : Nat) (proxy : String) (st : St) :
    arg.get c ph i proxy st =
      ({ (run c st (getCmd c (st.pkgs.getD i default) proxy)).1 with
          trace := (run c st (getCmd c (st.pkgs.getD i default) proxy)).1.trace
            ++ [Event.call ph Step.get i (getCmd c (st.pkgs.getD i default) proxy)
                (run c st (getCmd c (st.pkgs.getD i default) proxy)).2.1] },
        (run c st (getCmd c (st.pkgs.getD i default) proxy)).2.1) := by
  rfl

theorem list_of_err (c : Ctx) (ph : Phase) (i : Nat) (proxy : String) (st : St) (err : String)
    (h : (run c st (listCmd c (st.pkgs.getD i default) proxy)).2.1 = some err) :
    arg.list c ph i proxy st =
      ({ (run c st (listCmd c (st.pkgs.getD i default) proxy)).1 with
          trace := (run c st (listCmd c (st.pkgs.getD i default) proxy)).1.trace
            ++ [Event.call ph Step.list i (listCmd c (st.pkgs.getD i default) proxy) (some err)] },
        some err) := by
  unfold arg.list
  dsimp only
  generalize run c st (listCmd c (st.pkgs.getD i default) proxy) = r at h ⊢
  obtain ⟨st1, e, o⟩ := r
  simp only at h
  subst h
  rfl

theorem list_of_ok (c : Ctx) (ph : Phase) (i : Nat) (proxy : String) (st : St)
    (h : (run c st (listCmd c (st.pkgs.getD i default) proxy)).2.1 = none) :
    arg.list c ph i proxy st =
      ({ (run c st (listCmd c (st.pkgs.getD i default) proxy)).1 with
          pkgs := (run c st (listCmd c (st.pkgs.getD i default) proxy)).1.pkgs.set i
            (decodeLoop (st.pkgs.getD i default)
              (run c st (listCmd c (st.pkgs.getD i default) proxy)).2.2.records
              (run c st (listCmd c (st.pkgs.getD i default) proxy)).2.2.decodeErr).1,
          trace := (run c st (listCmd c (st.pkgs.getD i default) proxy)).1.trace
            ++ [Event.call ph Step.list i (listCmd c (st.pkgs.getD i default) proxy)
              (decodeLoop (st.pkgs.getD i default)
              (run c st (listCmd c (st.pkgs.getD i default) proxy)).2.2.records
              (run c st (listCmd c (st.pkgs.getD i default) proxy)).2.2.decodeErr).2] },
        (decodeLoop (st.pkgs.getD i default)
              (run c st (listCmd c (st.pkgs.getD i default) proxy)).2.2.records
              (run c st (listCmd c (st.pkgs.getD i default) proxy)).2.2.decodeErr).2) := by
  unfold arg.list
  dsimp only
  generalize run c st (listCmd c (st.pkgs.getD i default) proxy) = r at h ⊢
  obtain ⟨st1, e, o⟩ := r
  simp only at h
  subst h
  rfl

/-- What `arg.get` does to the state: it appends the trace lines of `run`
and the call, and leaves the specs and the queues alone. -/
theorem get_effect (c : Ctx) (ph : Phase) (i : Nat) (proxy : String) (st : St) :
    ∃ dbg, (∀ e ∈ dbg, ∃ s, e = Event.debug s)
      ∧ (arg.get c ph i proxy st).1.trace = st.trace ++ dbg
          ++ [Event.call ph Step.get i (getCmd c (st.pkgs.getD i default) proxy)
              (arg.get c ph i proxy st).2]
      ∧ (arg.get c ph i proxy st).1.pkgs = st.pkgs
      ∧ (arg.get c ph i proxy st).1.netPkgs = st.netPkgs
      ∧ (arg.get c ph i proxy st).1.nonMain = st.nonMain := by
  obtain ⟨dbg, hdbg, hrun⟩ := run_fst c st (getCmd c (st.pkgs.getD i default) proxy)
  refine ⟨dbg, hdbg, ?_⟩
  rw [get_eq]
  rw [hrun]
  exact ⟨rfl, rfl, rfl, rfl⟩

theorem decodeLoop_err_resErr (recs : List listPkg) (fin : Option String) (a : arg)
    (h : (decodeLoop a recs fin).2 ≠ none) : (decodeLoop a recs fin).1.resErr = a.resErr := by
  by_cases hex : ∃ p ∈ recs, p.Name ≠ "main"
  · exact absurd (decodeLoop_some_nonMain recs fin a hex).2 h
  · have hall : ∀ p ∈ recs, p.Name = "main" := by
      intro p hp
      by_contra hpn
      exact hex ⟨p, hp, hpn⟩
    exact (decodeLoop_all_main recs fin a hall).1

theorem decodeLoop_resErr_cases (recs : List listPkg) (fin : Option String) (a : arg) :
    (decodeLoop a recs fin).1.resErr = a.resErr
      ∨ (decodeLoop a recs fin).1.resErr = some errNonMain := by
  by_cases hex : ∃ p ∈ recs, p.Name ≠ "main"
  · exact Or.inr (decodeLoop_some_nonMain recs fin a hex).1
  · have hall : ∀ p ∈ recs, p.Name = "main" := by
      intro p hp
      by_contra hpn
      exact hex ⟨p, hp, hpn⟩
    exact Or.inl (decodeLoop_all_main recs fin a hall).1

/-- What `arg.list` does to the state: it appends the trace lines of `run`
and the call, changes no spec but the one at index `i`, leaves the queues
alone, and leaves `resErr` alone when it returns an error. -/
theorem list_effect (c : Ctx) (ph : Phase) (i : Nat) (proxy : String) (st : St) :
    ∃ dbg, (∀ e ∈ dbg, ∃ s, e = Event.debug s)
      ∧ (arg.list c ph i proxy st).1.trace = st.trace ++ dbg
          ++ [Event.call ph Step.list i (listCmd c (st.pkgs.getD i default) proxy)
              (arg.list c ph i proxy st).2]
      ∧ (arg.list c ph i proxy st).1.pkgs.length = st.pkgs.length
      ∧ (∀ j, j ≠ i → (arg.list c ph i proxy st).1.pkgs.getD j default = st.pkgs.getD j default)
      ∧ ((arg.list c ph i proxy st).2 ≠ none →
          ((arg.list c ph i proxy st).1.pkgs.getD i default).resErr
            = (st.pkgs.getD i default).resErr)
      ∧ (arg.list c ph i proxy st).1.netPkgs = st.netPkgs
      ∧ (arg.list c ph i proxy st).1.nonMain = st.nonMain
      ∧ (∀ j, ((arg.list c ph i proxy st).1.pkgs.getD j default).resErr
            = (st.pkgs.getD j default).resErr
          ∨ ((arg.list c ph i proxy st).1.pkgs.getD j default).resErr = some errNonMain) := by
  obtain ⟨dbg, hdbg, hrun⟩ := run_fst c st (listCmd c (st.pkgs.getD i default) proxy)
  refine ⟨dbg, hdbg, ?_⟩
  cases h : (run c st (listCmd c (st.pkgs.getD i default) proxy)).2.1 with
  | some err =>
    rw [list_of_err c ph i proxy st err h]
    rw [hrun]
    exact ⟨rfl, rfl, fun _ _ => rfl, fun _ => rfl, rfl, rfl, fun _ => Or.inl rfl⟩
  | none =>
    rw [list_of_ok c ph i proxy st h]
    rw [hrun]
    refine ⟨rfl, by simp, ?_, ?_, rfl, rfl, ?_⟩
    rotate_left 2
    · intro j
      by_cases hj : j = i
      · subst hj
        by_cases hi : j < st.pkgs.length
        · simp only [List.getD_eq_getElem?_getD, List.getElem?_set_self hi, Option.getD_some]
          rw [← List.getD_eq_getElem?_getD]
          exact decodeLoop_resErr_cases _ _ _
        · have hge : st.pkgs.length ≤ j := Nat.le_of_not_lt hi
          left
          show ((st.pkgs.set j _).getD j default).resErr = _
          rw [List.set_eq_of_length_le hge]
      · left
        simp only [List.getD_eq_getElem?_getD]
        rw [List.getElem?_set_ne (Ne.symm hj)]
    · intro j hj
      simp only [List.getD_eq_getElem?_getD]
      rw [List.getElem?_set_ne (Ne.symm hj)]
    · intro hne
      by_cases hi : i < st.pkgs.length
      · simp only [List.getD_eq_getElem?_getD, List.getElem?_set_self hi, Option.getD_some]
        rw [← List.getD_eq_getElem?_getD]
        exact decodeLoop_err_resErr _ _ _ hne
      · have hge : st.pkgs.length ≤ i := Nat.le_of_not_lt hi
        show ((st.pkgs.set i _).getD i default).resErr = _
        rw [List.set_eq_of_length_le hge]

/-- What `arg.list` leaves in the spec when it returns `nil`: the result of
the decoding loop on the records of the standard output. -/
theorem list_ok_pkg (c : Ctx) (ph : Phase) (i : Nat) (proxy : String) (st : St)
    (hi : i < st.pkgs.length) (hok : (arg.list c ph i proxy st).2 = none) :
    let out := (c.w.run st.trace (listCmd c (st.pkgs.getD i default) proxy) st.fs).stdout
    (arg.list c ph i proxy st).1.pkgs.getD i default
        = (decodeLoop (st.pkgs.getD i default) out.records out.decodeErr).1
      ∧ (decodeLoop (st.pkgs.getD i default) out.records out.decodeErr).2 = none := by
  intro out
  obtain ⟨dbg, _, hrun⟩ := run_fst c st (listCmd c (st.pkgs.getD i default) proxy)
  have hout := run_stdout c st (listCmd c (st.pkgs.getD i default) proxy)
  cases h : (run c st (listCmd c (st.pkgs.getD i default) proxy)).2.1 with
  | some err =>
    rw [list_of_err c ph i proxy st err h] at hok
    simp at hok
  | none =>
    rw [list_of_ok c ph i proxy st h] at hok ⊢
    rw [hout] at hok ⊢
    rw [hrun]
    refine ⟨?_, hok⟩
    show (st.pkgs.set i _).getD i default = _
    simp only [out, List.getD_eq_getElem?_getD, List.getElem?_set_self hi, Option.getD_some]

/-- C5, as amended: for a spec with no earlier resolution state, once
`arg.list` returns `nil`, `mainPkgs` holds the records before the first one
whose name is not `main`, and `resErr` is set exactly when there is such a
record.  So exactly one of the two is populated if and only if the output
has at least one record and either all records are main packages or the
first record is not one (in particular for an output of a single record). -/
theorem C5_list_outcome (c : Ctx) (ph : Phase) (i : Nat) (proxy : String) (st : St)
    (hi : i < st.pkgs.length)
    (hm : (st.pkgs.getD i default).mainPkgs = [])
    (hr : (st.pkgs.getD i default).resErr = none)
    (hok : (arg.list c ph i proxy st).2 = none) :
    let a1 := (arg.list c ph i proxy st).1.pkgs.getD i default
    let recs := (c.w.run st.trace (listCmd c (st.pkgs.getD i default) proxy) st.fs).stdout.records
    a1.mainPkgs = recs.takeWhile (fun p => decide (p.Name = "main"))
    ∧ (a1.resErr ≠ none ↔ ∃ p ∈ recs, p.Name ≠ "main")
    ∧ (((a1.mainPkgs ≠ [] ∧ a1.resErr = none) ∨ (a1.mainPkgs = [] ∧ a1.resErr ≠ none))
        ↔ (recs ≠ [] ∧ ((∀ p ∈ recs, p.Name = "main")
              ∨ ∃ p rest, recs = p :: rest ∧ p.Name ≠ "main"))) := by
  intro a1 recs
  obtain ⟨h1, _⟩ := list_ok_pkg c ph i proxy st hi hok
  have hmain : a1.mainPkgs = recs.takeWhile (fun p => decide (p.Name = "main")) := by
    show ((arg.list c ph i proxy st).1.pkgs.getD i default).mainPkgs = _
    rw [h1, decodeLoop_mainPkgs, hm, List.nil_append]
  have hres : a1.resErr ≠ none ↔ ∃ p ∈ recs, p.Name ≠ "main" := by
    show ((arg.list c ph i proxy st).1.pkgs.getD i default).resErr ≠ none ↔ _
    rw [h1]
    constructor
    · intro hne
      by_contra hno
      have hall : ∀ p ∈ recs, p.Name = "main" := by
        intro p hp
        by_contra hpn
        exact hno ⟨p, hp, hpn⟩
      have := (decodeLoop_all_main recs
        (c.w.run st.trace (listCmd c (st.pkgs.getD i default) proxy) st.fs).stdout.decodeErr
        (st.pkgs.getD i default) hall).1
      rw [hr] at this
      exact hne this
    · intro hex
      rw [(decodeLoop_some_nonMain recs _ (st.pkgs.getD i default) hex).1]
      simp
  refine ⟨hmain, hres, ?_⟩
  rw [hmain]
  cases hrecs : recs with
  | nil =>
    have : a1.resErr = none := by
      by_contra hne
      obtain ⟨p, hp, _⟩ := hres.mp hne
      rw [hrecs] at hp
      simp at hp
    simp [this]
  | cons p rest =>
    by_cases hp : p.Name = "main"
    · have hne : List.takeWhile (fun p => decide (p.Name = "main")) (p :: rest) ≠ [] := by
        simp [List.takeWhile, hp]
      constructor
      · rintro (⟨_, hnone⟩ | ⟨hempty, _⟩)
        · refine ⟨by simp, Or.inl ?_⟩
          intro q hq
          by_contra hqn
          exact (hres.mpr ⟨q, hrecs ▸ hq, hqn⟩) hnone
        · exact absurd hempty hne
      · rintro ⟨_, hall | ⟨q, rest2, heq, hqn⟩⟩
        · refine Or.inl ⟨hne, ?_⟩
          by_contra hset
          obtain ⟨q, hq, hqn⟩ := hres.mp hset
          exact hqn (hall q (hrecs ▸ hq))
        · simp only [List.cons.injEq] at heq
          exact absurd (heq.1 ▸ hp) hqn
    · have hempty : List.takeWhile (fun p => decide (p.Name = "main")) (p :: rest) = [] := by
        simp [List.takeWhile, hp]
      have hset : a1.resErr ≠ none := hres.mpr ⟨p, by rw [hrecs]; simp, hp⟩
      constructor
      · intro _
        exact ⟨by simp, Or.inr ⟨p, rest, rfl, hp⟩⟩
      · intro _
        exact Or.inr ⟨hempty, hset⟩

/-- Witness for C5: a fresh spec and a `go list` that prints
one main package. -/
theorem C5_list_outcome_witness :
    let c := sampleCtx noFlags
      (sampleWorld [] (listGives [mkPkg "example.com/cmd" "main" "example.com/cmd" "v1.2.3"]) []) 1
    let st := St.init c.w [mkArg "example.com/cmd@v1.2.3" "/tmp/gobin1"]
    let a1 := (arg.list c Phase.localPhase 0 "" st).1.pkgs.getD 0 default
    let recs := (c.w.run st.trace (listCmd c (st.pkgs.getD 0 default) "") st.fs).stdout.records
    a1.mainPkgs = recs.takeWhile (fun p => decide (p.Name = "main"))
    ∧ (a1.resErr ≠ none ↔ ∃ p ∈ recs, p.Name ≠ "main")
    ∧ (((a1.mainPkgs ≠ [] ∧ a1.resErr = none) ∨ (a1.mainPkgs = [] ∧ a1.resErr ≠ none))
        ↔ (recs ≠ [] ∧ ((∀ p ∈ recs, p.Name = "main")
              ∨ ∃ p rest, recs = p :: rest ∧ p.Name ≠ "main"))) :=
  C5_list_outcome _ Phase.localPhase 0 "" _ (by decide) (by decide) (by decide) (by decide)

/-- C5 fails as stated.  On an output with no record `arg.list` returns
`nil` and leaves both `mainPkgs` and `resErr` empty; on an output with a
main package followed by a package named `lib` it returns `nil` and leaves
both populated. -/
theorem C5_counterexample :
    (let c := sampleCtx noFlags (sampleWorld [] (listGives []) []) 1
     let r := arg.list c Phase.localPhase 0 "" (St.init c.w [mkArg "example.com/cmd" "/tmp/gobin1"])
     r.2 = none ∧ (r.1.pkgs.getD 0 default).mainPkgs = []
       ∧ (r.1.pkgs.getD 0 default).resErr = none)
    ∧ (let recs := [mkPkg "example.com/m/a" "main" "example.com/m" "v1.0.0",
                    mkPkg "example.com/m/b" "lib" "example.com/m" "v1.0.0"]
       let c := sampleCtx noFlags (sampleWorld [] (listGives recs) []) 1
       let r := arg.list c Phase.localPhase 0 "" (St.init c.w [mkArg "example.com/m/..." "/tmp/gobin1"])
       r.2 = none
         ∧ (r.1.pkgs.getD 0 default).mainPkgs = [mkPkg "example.com/m/a" "main" "example.com/m" "v1.0.0"]
         ∧ (r.1.pkgs.getD 0 default).resErr = some "not a main package") := by
  decide


/-! ## The cache layout (C6) -/

theorem installCopy_keeps (c : Ctx) (mp : listPkg) (target : String) (st : St) :
    ∀ e ∈ st.trace, e ∈ (installCopy c mp target st).1.trace := by
  intro e he
  unfold installCopy
  dsimp only
  by_cases hs : mp.ImportPath = selfImportPath
  · simp only [hs, decide_True, if_true, removeIgnoringError]
    repeat' split
    all_goals simp [he]
  · simp only [hs, decide_False, Bool.false_eq_true, if_false]
    repeat' split
    all_goals simp [he]

theorem mainrel_eq (w : World) (mp : listPkg) (emp epp : String)
    (hM : w.EncodePath mp.Module.Path = .ok emp) (hI : w.EncodePath mp.ImportPath = .ok epp) :
    mainrel w mp = .ok (filepathJoin
      [if mp.Module.Version ≠ "" then filepathJoin [emp, "@v", mp.Module.Version] else emp, epp]) := by
  simp only [mainrel, FromSlash, hM, hI]

theorem installOne_call (c : Ctx) (i : Nat) (mp : listPkg) (st : St) (rel : String)
    (h : mainrel c.w mp = .ok rel) :
    ∃ err, Event.call Phase.installPhase Step.install i
        { args := ["go", "install", mp.ImportPath],
          dir := (st.pkgs.getD i default).wd,
          env := buildEnv c.w c.f ("GOPROXY=file://" ++ c.modDlCache)
            ++ ["GOBIN=" ++ filepathJoin [c.gobinCache, rel]] } err
      ∈ (installOne c i mp st).1.trace := by
  have hwd : ∀ p, ((if mp.ImportPath = selfImportPath then removeIgnoringError st p else st).pkgs.getD
      i default).wd = (st.pkgs.getD i default).wd := by
    intro p
    split <;> rfl
  have hproxy : "GOPROXY=" ++ ("file://" ++ c.modDlCache) = "GOPROXY=file://" ++ c.modDlCache := by
    rw [← String.append_assoc]
    rfl
  unfold installOne
  rw [h]
  dsimp only
  rw [hwd, hproxy]
  split
  · rename_i st1 err o hr
    exact ⟨some err, by simp⟩
  · refine ⟨none, ?_⟩
    split
    · simp
    · split
      · simp
      · split
        · simp
        · split
          · split <;> simp
          · apply installCopy_keeps
            simp

/-- C6, as amended: the install directory relative to the cache root is
`encode(M)`, then `@v` and the module version as it is (not encoded) when
the version is non-empty, then `encode(I)` for the whole import path `I`,
joined as paths; and the `go install` step of the package runs with `GOBIN`
set to that directory under the cache root. -/
theorem C6_mainrel (c : Ctx) (i : Nat) (mp : listPkg) (st : St) (emp epp : String)
    (hM : c.w.EncodePath mp.Module.Path = .ok emp)
    (hI : c.w.EncodePath mp.ImportPath = .ok epp) :
    mainrel c.w mp = .ok (filepathJoin
      [if mp.Module.Version ≠ "" then filepathJoin [emp, "@v", mp.Module.Version] else emp, epp])
    ∧ ∃ err, Event.call Phase.installPhase Step.install i
        { args := ["go", "install", mp.ImportPath],
          dir := (st.pkgs.getD i default).wd,
          env := buildEnv c.w c.f ("GOPROXY=file://" ++ c.modDlCache)
            ++ ["GOBIN=" ++ filepathJoin [c.gobinCache, filepathJoin
              [if mp.Module.Version ≠ "" then filepathJoin [emp, "@v", mp.Module.Version]
                else emp, epp]]] } err
      ∈ (installOne c i mp st).1.trace :=
  ⟨mainrel_eq c.w mp emp epp hM hI,
    installOne_call c i mp st _ (mainrel_eq c.w mp emp epp hM hI)⟩

/-- Witness for C6: for `M = I = example.com/cmd` and `V = v1.2.3`
the relative install directory is `example.com/cmd/@v/v1.2.3/example.com/cmd`. -/
theorem C6_mainrel_witness :
    mainrel (sampleWorld [] (listGives []) [])
        (mkPkg "example.com/cmd" "main" "example.com/cmd" "v1.2.3")
      = .ok "example.com/cmd/@v/v1.2.3/example.com/cmd" :=
  (C6_mainrel (sampleCtx noFlags (sampleWorld [] (listGives []) []) 1) 0
    (mkPkg "example.com/cmd" "main" "example.com/cmd" "v1.2.3")
    (St.init (sampleWorld [] (listGives []) []) [mkArg "example.com/cmd@v1.2.3" "/tmp/gobin1"])
    "example.com/cmd" "example.com/cmd" (by rfl) (by rfl)).1.trans (by rfl)

/-- C6 fails as stated: for `M = I = example.com/cmd` and `V = v1.2.3` the
directory is not `example.com/cmd/@v/v1.2.3/cmd`, since the whole import
path is appended; the version `v1.0.0-RC1` appears as it is, while its
encoding is `v1.0.0-!r!c1`; and a run of `mainerr` for
`example.com/cmd@v1.2.3` invokes `go install` with `GOBIN` set to
`example.com/cmd/@v/v1.2.3/example.com/cmd` under the cache root. -/
theorem C6_counterexample :
    mainrel (sampleWorld [] (listGives []) [])
        (mkPkg "example.com/cmd" "main" "example.com/cmd" "v1.2.3")
      = .ok "example.com/cmd/@v/v1.2.3/example.com/cmd"
    ∧ "example.com/cmd/@v/v1.2.3/example.com/cmd" ≠ "example.com/cmd/@v/v1.2.3/cmd"
    ∧ mainrel (sampleWorld [] (listGives []) [])
        (mkPkg "example.com/cmd" "main" "example.com/cmd" "v1.0.0-RC1")
      = .ok "example.com/cmd/@v/v1.0.0-RC1/example.com/cmd"
    ∧ EncodePathModel "v1.0.0-RC1" = .ok "v1.0.0-!r!c1"
    ∧ Event.call Phase.installPhase Step.install 0
        { args := ["go", "install", "example.com/cmd"], dir := "/tmp/gobin1",
          env := ["GOPATH=/go", "GO111MODULE=on", "GOPROXY=file:///go/pkg/mod/cache/download",
                  "GOFLAGS=",
                  "GOBIN=/home/u/.cache/gobin/example.com/cmd/@v/v1.2.3/example.com/cmd"] } none
      ∈ (mainerr { noFlags with fDownload := true } ["example.com/cmd@v1.2.3"]
          (sampleWorld []
            (listGives [mkPkg "example.com/cmd" "main" "example.com/cmd" "v1.2.3"]) [])).trace := by
  refine ⟨by rfl, by decide, by rfl, by rfl, by decide⟩

/-! ## The invariant on the network queue (C3) -/

/-- C3, the failing input: in main-module mode with `-nonet`, for a pattern
without version whose local `go list` fails, the spec is queued for the
network and `mainerr` reaches the panic. -/
theorem C3_panic_reached :
    (mainerr { noFlags with fMainMod := true, fNoNet := true } ["example.com/cmd"]
        (sampleWorld [] listFails [])).outcome = Outcome.panic "invariant on netPkgs failed"
    ∧ (mainerr { noFlags with fMainMod := true, fNoNet := true } ["example.com/cmd"]
        (sampleWorld [] listFails [])).netPkgs = [0] := by
  decide

/-! ## The proxy argument of `buildEnv` (C10) -/

/-- C10, the failing input: under `-u` with `GOPROXY=https://proxy.golang.org`
in the environment, the network `get` step runs with an environment that
holds the bare entry `https://proxy.golang.org`: the proxy argument was the
value of the variable, which is neither empty nor of the form `GOPROXY=X`. -/
theorem C10_network_proxy :
    Event.call Phase.network Step.get 0
        { args := ["go", "get", "-d", "example.com/cmd@v1.0.0"], dir := "/tmp/gobin1",
          env := ["GOPATH=/go", "GOPROXY=https://proxy.golang.org", "GO111MODULE=on",
                  "https://proxy.golang.org", "GOFLAGS="] } none
      ∈ (mainerr { noFlags with fUpgrade := true } ["example.com/cmd@v1.0.0"]
          (sampleWorld [("GOPROXY", "https://proxy.golang.org")]
            (listGives [mkPkg "example.com/cmd" "main" "example.com/cmd" "v1.0.0"]) [])).trace
    ∧ HasPrefix "https://proxy.golang.org" "GOPROXY=" = false := by
  decide

/-! ## Install mode (C9) -/


theorem FS.find_cons_self (p : String) (n : Node) (fs : FS) : FS.find ((p, n) :: fs) p = some n := by
  simp [FS.find, List.lookup]

theorem FS.find_erase_self (fs : FS) (p : String) : (FS.erase fs p).find p = none := by
  induction fs with
  | nil => rfl
  | cons e rest ih =>
    obtain ⟨q, n⟩ := e
    by_cases h : q = p
    · simpa [FS.erase, FS.find, List.filter, h] using ih
    · have h2 : (p == q) = false := by
        simp only [beq_eq_false_iff_ne, ne_eq]
        exact fun h3 => h h3.symm
      simpa [FS.erase, FS.find, List.filter, h, List.lookup, h2] using ih

/-- C9, as amended.  In install mode, when the build artifact is a file
and a file already exists at the destination: the copy succeeds in both
cases.  For the tool's own import path the existing file is removed before
the destination is opened, the open requires exclusive creation, and the
destination ends up holding exactly the artifact.  For any other import
path the destination is opened without removal and without exclusive
creation and the artifact is written over the existing file from its start:
the install does not fail. -/
theorem C9_install_copy (c : Ctx) (mp : listPkg) (target : String) (st : St) (fs1 : FS)
    (bytes old : List Nat)
    (hmk : st.fs.MkdirAll (installBinDir c) = .ok fs1)
    (hsrc : fs1.Open target = .ok (Node.file bytes))
    (hbin : fs1.find (installDest c mp) = some (Node.file old)) :
    (installCopy c mp target st).2 = none
    ∧ (if mp.ImportPath = selfImportPath then
        (installCopy c mp target st).1.fs.find (installDest c mp) = some (Node.file bytes)
        ∧ (installCopy c mp target st).1.trace = st.trace ++
            [Event.mkdirAll (installBinDir c), Event.openRead target,
             Event.remove (installDest c mp),
             Event.openFile (installDest c mp) { create := true, wronly := true, excl := true },
             Event.copy (installDest c mp),
             Event.stdout ("Installed " ++ mp.ImportPath ++ "@" ++ mp.Module.Version ++ " to "
               ++ installDest c mp ++ "\n")]
      else
        (∃ tail, (installCopy c mp target st).1.fs.find (installDest c mp)
            = some (Node.file (bytes ++ tail)))
        ∧ (installCopy c mp target st).1.trace = st.trace ++
            [Event.mkdirAll (installBinDir c), Event.openRead target,
             Event.openFile (installDest c mp) { create := true, wronly := true, excl := false },
             Event.copy (installDest c mp),
             Event.stdout ("Installed " ++ mp.ImportPath ++ "@" ++ mp.Module.Version ++ " to "
               ++ installDest c mp ++ "\n")]) := by
  by_cases hself : mp.ImportPath = selfImportPath
  · have hrem : fs1.Remove (installDest c mp) = .ok (fs1.erase (installDest c mp)) := by
      simp [FS.Remove, hbin]
    have hopen : (fs1.erase (installDest c mp)).OpenFile (installDest c mp)
        { create := true, wronly := true, excl := true }
        = .ok ((installDest c mp, Node.file []) :: fs1.erase (installDest c mp)) := by
      simp [FS.OpenFile, FS.find_erase_self]
    have hcopy : FS.Copy ((installDest c mp, Node.file []) :: fs1.erase (installDest c mp))
        (installDest c mp) (Node.file bytes)
        = .ok ((installDest c mp, Node.file (bytes ++ ([] : List Nat).drop bytes.length)) ::
            FS.erase ((installDest c mp, Node.file []) :: fs1.erase (installDest c mp))
              (installDest c mp)) := by
      simp [FS.Copy, FS.find_cons_self]
    simp only [installCopy, hmk, hsrc, hself, removeIgnoringError, hrem, hopen, hcopy, if_true,
      decide_True]
    simp [FS.find_cons_self]
  · have hopen : fs1.OpenFile (installDest c mp) { create := true, wronly := true, excl := false }
        = .ok fs1 := by
      simp [FS.OpenFile, hbin]
    have hcopy : FS.Copy fs1 (installDest c mp) (Node.file bytes)
        = .ok ((installDest c mp, Node.file (bytes ++ old.drop bytes.length)) ::
            FS.erase fs1 (installDest c mp)) := by
      simp [FS.Copy, hbin]
    simp only [installCopy, hmk, hsrc, hself, hopen, hcopy, if_false, decide_False]
    simp [FS.find_cons_self, hopen, hcopy]

/-- Witness for C9: installing the tool itself over an
existing copy. -/
theorem C9_install_copy_witness :
    (installCopy (sampleCtx noFlags (sampleWorld [] (listGives []) []) 1)
      (mkPkg "github.com/myitcv/gobin" "main" "github.com/myitcv/gobin" "v0.0.1")
      "/cache/gobin"
      { trace := [], pkgs := [], netPkgs := [], nonMain := [],
        fs := [("/go/bin", Node.dir), ("/cache/gobin", Node.file [1, 2, 3]),
               ("/go/bin/gobin", Node.file [9, 9, 9, 9, 9])] }).2 = none :=
  (C9_install_copy (sampleCtx noFlags (sampleWorld [] (listGives []) []) 1)
      (mkPkg "github.com/myitcv/gobin" "main" "github.com/myitcv/gobin" "v0.0.1")
      "/cache/gobin"
      { trace := [], pkgs := [], netPkgs := [], nonMain := [],
        fs := [("/go/bin", Node.dir), ("/cache/gobin", Node.file [1, 2, 3]),
               ("/go/bin/gobin", Node.file [9, 9, 9, 9, 9])] }
      [("/go/bin", Node.dir), ("/cache/gobin", Node.file [1, 2, 3]),
               ("/go/bin/gobin", Node.file [9, 9, 9, 9, 9])]
      [1, 2, 3] [9, 9, 9, 9, 9] (by rfl) (by rfl) (by rfl)).1

/-- C9 fails as stated for an import path that is not the tool's own: with
a file already at `/go/bin/cmd`, installing `example.com/cmd@v1.2.3` ends
with `nil`, and the destination holds the new bytes over the old ones. -/
theorem C9_counterexample :
    (mainerr noFlags ["example.com/cmd@v1.2.3"]
        (sampleWorld []
          (builds [mkPkg "example.com/cmd" "main" "example.com/cmd" "v1.2.3"]
            "/home/u/.cache/gobin/example.com/cmd/@v/v1.2.3/example.com/cmd/cmd" [1, 2, 3])
          [("/go/bin/cmd", Node.file [7, 7, 7, 7, 7])])).outcome = Outcome.ok
    ∧ FS.find (mainerr noFlags ["example.com/cmd@v1.2.3"]
        (sampleWorld []
          (builds [mkPkg "example.com/cmd" "main" "example.com/cmd" "v1.2.3"]
            "/home/u/.cache/gobin/example.com/cmd/@v/v1.2.3/example.com/cmd/cmd" [1, 2, 3])
          [("/go/bin/cmd", Node.file [7, 7, 7, 7, 7])])).fs "/go/bin/cmd"
        = some (Node.file [1, 2, 3, 7, 7]) := by
  decide

/-! ## The resolution loops -/

theorem noteNonMain_eq (i : Nat) (st : St) :
    noteNonMain i st = { st with nonMain := st.nonMain ++ (if resErrSet st.pkgs i then [i] else []) } := by
  unfold noteNonMain resErrSet
  split <;> simp

theorem inPhase_debug (ph : Phase) (dbg : List Event) (h : ∀ e ∈ dbg, ∃ s, e = Event.debug s) :
    ∀ e ∈ dbg, e.inPhase ph = true := by
  intro e he
  obtain ⟨s, rfl⟩ := h e he
  rfl

theorem resolved_debug (dbg : List Event) (h : ∀ e ∈ dbg, ∃ s, e = Event.debug s) :
    dbg.filterMap Event.resolved = [] := by
  rw [List.filterMap_eq_nil_iff]
  intro e he
  obtain ⟨s, rfl⟩ := h e he
  rfl

theorem failed_debug (dbg : List Event) (h : ∀ e ∈ dbg, ∃ s, e = Event.debug s) :
    ∀ e ∈ dbg, e.isFailedLocal = false := by
  intro e he
  obtain ⟨s, rfl⟩ := h e he
  rfl

/-- The facts of the tail of an iteration, from `arg.list` on, when a failed
`list` either returns the error (`requeue = false`) or queues the spec. -/
theorem listTail_facts (c : Ctx) (ph : Phase) (i : Nat) (proxy : String) (st : St)
    (requeue : Bool) (hq : requeue = true → ph = Phase.localPhase) :
    StepFacts ph i st
      (match arg.list c ph i proxy st with
        | (st1, some err) =>
          if !requeue then (st1, some (Outcome.error err))
          else ({ st1 with netPkgs := st1.netPkgs ++ [i] }, none)
        | (st1, none) => (noteNonMain i st1, none)).1
      (match arg.list c ph i proxy st with
        | (st1, some err) =>
          if !requeue then (st1, some (Outcome.error err))
          else ({ st1 with netPkgs := st1.netPkgs ++ [i] }, none)
        | (st1, none) => (noteNonMain i st1, none)).2 := by
  obtain ⟨dbg, hdbg, htr, hlen, hoth, hres, hnet, hnm, hE⟩ := list_effect c ph i proxy st
  rcases hl : arg.list c ph i proxy st with ⟨st1, el⟩
  rw [hl] at htr hlen hoth hres hnet hnm hE
  simp only at htr hlen hoth hres hnet hnm hE
  rw [List.append_assoc] at htr
  cases el with
  | some err =>
    cases requeue with
    | false =>
      show StepFacts ph i st st1 (some (Outcome.error err))
      refine ⟨false, false, _, htr, ?_, ?_, ?_, ?_, ?_, ?_, ?_, ?_, ?_, ?_, hlen, hoth, hE⟩
      · intro e he
        rcases List.mem_append.mp he with h1 | h1
        · exact inPhase_debug ph dbg hdbg e h1
        · simp only [List.mem_singleton] at h1
          subst h1
          simp [Event.inPhase]
      · simp [List.filterMap_append, resolved_debug dbg hdbg, Event.resolved]
      · simpa using hnet
      · simpa using hnm
      · intro _
        exact hres (by simp)
      · intro h
        simp at h
      · intro h
        simp at h
      · exact Or.inr ⟨err, rfl⟩
      · intro _
        exact Or.inr (by simp)
      · intro _
        exact Or.inr (by simp)
    | true =>
      show StepFacts ph i st { st1 with netPkgs := st1.netPkgs ++ [i] } none
      refine ⟨false, true, _, htr, ?_, ?_, ?_, ?_, ?_, ?_, ?_, ?_, ?_, ?_, hlen, hoth, hE⟩
      · intro e he
        rcases List.mem_append.mp he with h1 | h1
        · exact inPhase_debug ph dbg hdbg e h1
        · simp only [List.mem_singleton] at h1
          subst h1
          simp [Event.inPhase]
      · simp [List.filterMap_append, resolved_debug dbg hdbg, Event.resolved]
      · simp [hnet]
      · simpa using hnm
      · intro _
        exact hres (by simp)
      · intro h
        simp at h
      · intro _
        exact ⟨rfl, hq rfl⟩
      · exact Or.inl rfl
      · intro _
        exact Or.inl rfl
      · intro hph
        have := hq rfl
        rw [hph] at this
        cases this
  | none =>
    show StepFacts ph i st (noteNonMain i st1) none
    rw [noteNonMain_eq]
    refine ⟨true, false, _, htr, ?_, ?_, ?_, ?_, ?_, ?_, ?_, ?_, ?_, ?_, ?_, ?_, hE⟩
    · intro e he
      rcases List.mem_append.mp he with h1 | h1
      · exact inPhase_debug ph dbg hdbg e h1
      · simp only [List.mem_singleton] at h1
        subst h1
        simp [Event.inPhase]
    · simp [List.filterMap_append, resolved_debug dbg hdbg, Event.resolved]
    · simp [noteNonMain_eq, hnet]
    · simp [noteNonMain_eq, hnm]
    · intro h
      simp at h
    · intro _
      exact ⟨rfl, rfl⟩
    · intro h
      simp at h
    · exact Or.inl rfl
    · rintro ⟨e, he, hf⟩
      rcases List.mem_append.mp he with h1 | h1
      · rw [failed_debug dbg hdbg e h1] at hf
        cases hf
      · simp only [List.mem_singleton] at h1
        subst h1
        cases ph <;> simp [Event.isFailedLocal] at hf
    · intro _
      exact Or.inl rfl
    · simp [noteNonMain_eq, hlen]
    · intro j hj
      simp [noteNonMain_eq]
      simpa using hoth j hj

/-- A step seen from an earlier state that differs only by harmless events. -/
theorem StepFacts.prepend {ph : Phase} {i : Nat} {st stg st1 : St} {o : Option Outcome}
    (pre : List Event) (htr : stg.trace = st.trace ++ pre)
    (hin : ∀ e ∈ pre, e.inPhase ph = true)
    (hres : pre.filterMap Event.resolved = [])
    (hfail : ∀ e ∈ pre, e.isFailedLocal = false)
    (hpk : stg.pkgs = st.pkgs) (hnet : stg.netPkgs = st.netPkgs)
    (hnm : stg.nonMain = st.nonMain)
    (h : StepFacts ph i stg st1 o) : StepFacts ph i st st1 o := by
  obtain ⟨ok, queued, evs, h1, h2, h3, h4, h5, h6, h7, h8, h9, h10, h11, h12, h13, h14⟩ := h
  refine ⟨ok, queued, pre ++ evs, ?_, ?_, ?_, ?_, ?_, ?_, h7, h8, h9, ?_, h11, ?_, ?_, ?_⟩
  · rw [h1, htr, List.append_assoc]
  · intro e he
    rcases List.mem_append.mp he with h0 | h0
    · exact hin e h0
    · exact h2 e h0
  · rw [List.filterMap_append, hres, h3, List.nil_append]
  · rw [h4, hnet]
  · rw [h5, hnm]
  · rw [← hpk]
    exact h6
  · rintro ⟨e, he, hf⟩
    rcases List.mem_append.mp he with h0 | h0
    · rw [hfail e h0] at hf
      cases hf
    · exact h10 ⟨e, h0, hf⟩
  · rw [h12, hpk]
  · rw [← hpk]
    exact h13
  · rw [← hpk]
    exact h14

/-- The facts of a failed `arg.get` that returns the error or queues the spec. -/
theorem getFail_facts (c : Ctx) (ph : Phase) (i : Nat) (proxy : String) (st : St)
    (err : String) (queue : Bool) (hq : queue = true → ph = Phase.localPhase) :
    StepFacts ph i st
      (if queue then { (arg.get c ph i proxy st).1 with
          netPkgs := (arg.get c ph i proxy st).1.netPkgs ++ [i] }
        else (arg.get c ph i proxy st).1)
      (if queue then none else some (Outcome.error err)) := by
  obtain ⟨dbg, hdbg, htr, hpk, hnet, hnm⟩ := get_effect c ph i proxy st
  rw [List.append_assoc] at htr
  have hin : ∀ e ∈ dbg ++ [Event.call ph Step.get i (getCmd c (st.pkgs.getD i default) proxy)
      (arg.get c ph i proxy st).2], e.inPhase ph = true := by
    intro e he
    rcases List.mem_append.mp he with h1 | h1
    · exact inPhase_debug ph dbg hdbg e h1
    · simp only [List.mem_singleton] at h1
      subst h1
      simp [Event.inPhase]
  have hresolved : (dbg ++ [Event.call ph Step.get i (getCmd c (st.pkgs.getD i default) proxy)
      (arg.get c ph i proxy st).2]).filterMap Event.resolved = [] := by
    simp [List.filterMap_append, resolved_debug dbg hdbg, Event.resolved]
  cases queue with
  | true =>
    refine ⟨false, true, _, htr, hin, by simpa using hresolved, by simp [hnet], by simp [hnm],
      ?_, ?_, ?_, Or.inl rfl, ?_, ?_, by simp [hpk], ?_, ?_⟩
    · intro _
      simp [hpk]
    · intro h
      simp at h
    · intro _
      exact ⟨rfl, hq rfl⟩
    · intro _
      exact Or.inl rfl
    · intro hph
      have := hq rfl
      rw [hph] at this
      cases this
    · intro j _
      simp [hpk]
    · intro j
      left
      simp [hpk]
  | false =>
    refine ⟨false, false, _, htr, hin, by simpa using hresolved, by simp [hnet], by simp [hnm],
      ?_, ?_, ?_, Or.inr ⟨err, rfl⟩, ?_, ?_, by simp [hpk], ?_, ?_⟩
    · intro _
      simp [hpk]
    · intro h
      simp at h
    · intro h
      simp at h
    · intro _
      exact Or.inr (by simp)
    · intro _
      exact Or.inr (by simp)
    · intro j _
      simp [hpk]
    · intro j
      left
      simp [hpk]

/-- A successful `arg.get` followed by a step is that step. -/
theorem getOk_prepend (c : Ctx) (ph : Phase) (i : Nat) (proxy : String) (st st1 : St)
    (o : Option Outcome) (hg : (arg.get c ph i proxy st).2 = none)
    (h : StepFacts ph i (arg.get c ph i proxy st).1 st1 o) : StepFacts ph i st st1 o := by
  obtain ⟨dbg, hdbg, htr, hpk, hnet, hnm⟩ := get_effect c ph i proxy st
  rw [List.append_assoc] at htr
  refine StepFacts.prepend _ htr ?_ ?_ ?_ hpk hnet hnm h
  · intro e he
    rcases List.mem_append.mp he with h1 | h1
    · exact inPhase_debug ph dbg hdbg e h1
    · simp only [List.mem_singleton] at h1
      subst h1
      simp [Event.inPhase]
  · simp [List.filterMap_append, resolved_debug dbg hdbg, Event.resolved]
  · intro e he
    rcases List.mem_append.mp he with h1 | h1
    · exact failed_debug dbg hdbg e h1
    · simp only [List.mem_singleton] at h1
      subst h1
      rw [hg]
      cases ph <;> rfl

theorem localStep_facts (c : Ctx) (i : Nat) (st : St) :
    StepFacts Phase.localPhase i st (localStep c i st).1 (localStep c i st).2 := by
  unfold localStep
  dsimp only
  cases hu : (c.f.fMainMod && (st.pkgs.getD i default).verPatt == "") with
  | true =>
    simp only [Bool.not_true, Bool.false_eq_true, if_false]
    exact listTail_facts c Phase.localPhase i _ st true (fun _ => rfl)
  | false =>
    simp only [Bool.not_false, if_true]
    rcases hg : arg.get c Phase.localPhase i ("GOPROXY=file://" ++ c.modDlCache) st with ⟨stg, eg⟩
    have hg1 : (arg.get c Phase.localPhase i ("GOPROXY=file://" ++ c.modDlCache) st).1 = stg := by
      rw [hg]
    have hg2 : (arg.get c Phase.localPhase i ("GOPROXY=file://" ++ c.modDlCache) st).2 = eg := by
      rw [hg]
    cases eg with
    | some err =>
      have := getFail_facts c Phase.localPhase i ("GOPROXY=file://" ++ c.modDlCache) st err
        (!c.f.fNoNet) (fun _ => rfl)
      rw [hg1] at this
      cases hn : c.f.fNoNet with
      | true =>
        rw [hn] at this
        simpa using this
      | false =>
        rw [hn] at this
        simpa using this
    | none =>
      apply getOk_prepend c Phase.localPhase i _ st _ _ hg2
      rw [hg1]
      exact listTail_facts c Phase.localPhase i _ stg false (fun h => by cases h)

theorem netStep_facts (c : Ctx) (i : Nat) (st : St) :
    StepFacts Phase.network i st (netStep c i st).1 (netStep c i st).2 := by
  have hlist : ∀ st0 : St, StepFacts Phase.network i st0
      (match arg.list c Phase.network i (Getenv c.w "GOPROXY") st0 with
        | (st1, some err) => (st1, some (Outcome.error err))
        | (st1, none) => (noteNonMain i st1, none)).1
      (match arg.list c Phase.network i (Getenv c.w "GOPROXY") st0 with
        | (st1, some err) => (st1, some (Outcome.error err))
        | (st1, none) => (noteNonMain i st1, none)).2 := by
    intro st0
    have := listTail_facts c Phase.network i (Getenv c.w "GOPROXY") st0 false
      (fun h => by cases h)
    simpa using this
  unfold netStep
  dsimp only
  cases hu : (c.f.fMainMod && (st.pkgs.getD i default).verPatt == "") with
  | true =>
    simp only [Bool.not_true, Bool.false_eq_true, if_false]
    exact hlist st
  | false =>
    simp only [Bool.not_false, if_true]
    rcases hg : arg.get c Phase.network i (Getenv c.w "GOPROXY") st with ⟨stg, eg⟩
    have hg1 : (arg.get c Phase.network i (Getenv c.w "GOPROXY") st).1 = stg := by rw [hg]
    have hg2 : (arg.get c Phase.network i (Getenv c.w "GOPROXY") st).2 = eg := by rw [hg]
    cases eg with
    | some err =>
      have := getFail_facts c Phase.network i (Getenv c.w "GOPROXY") st err false
        (fun h => by cases h)
      rw [hg1] at this
      simpa using this
    | none =>
      apply getOk_prepend c Phase.network i _ st _ _ hg2
      rw [hg1]
      exact hlist stg

theorem rangeLoop_cons_some (body : Nat → St → St × Option Outcome) (i : Nat) (is : List Nat)
    (st : St) (x : Outcome) (h : (body i st).2 = some x) :
    rangeLoop body (i :: is) st = ((body i st).1, some x) := by
  rcases hb : body i st with ⟨sa, oa⟩
  rw [hb] at h
  simp only at h
  subst h
  simp [rangeLoop, hb]

theorem rangeLoop_cons_none (body : Nat → St → St × Option Outcome) (i : Nat) (is : List Nat)
    (st : St) (h : (body i st).2 = none) :
    rangeLoop body (i :: is) st = rangeLoop body is (body i st).1 := by
  rcases hb : body i st with ⟨sa, oa⟩
  rw [hb] at h
  simp only at h
  subst h
  simp [rangeLoop, hb]

/-- The facts of a resolution loop, from the facts of its body. -/
theorem rangeLoop_facts (ph : Phase) (body : Nat → St → St × Option Outcome)
    (hbody : ∀ i st, StepFacts ph i st (body i st).1 (body i st).2)
    (is : List Nat) (hnd : is.Nodup) (st : St) :
    LoopFacts ph is st (rangeLoop body is st).1 (rangeLoop body is st).2 := by
  induction is generalizing st with
  | nil =>
    refine ⟨[], [], [], ?_, ?_, rfl, List.Sublist.refl _, ?_, List.Sublist.refl _, ?_, ?_, ?_, ?_,
      Or.inl rfl, ?_, ?_, rfl, ?_, ?_⟩ <;> simp [rangeLoop]
  | cons i is ih =>
    have hi : i ∉ is := (List.nodup_cons.mp hnd).1
    have hnd1 : is.Nodup := (List.nodup_cons.mp hnd).2
    obtain ⟨ok, queued, evsa, h1, h2, h3, h4, h5, h6, h7, h8, h9, h10, h11, h12, h13, h14⟩ :=
      hbody i st
    cases hoa : (body i st).2 with
    | some x =>
      rw [rangeLoop_cons_some body i is st x hoa]
      rw [hoa] at h7 h8 h9 h10 h11
      have hok : ok = false := by
        cases ok with
        | false => rfl
        | true => exact absurd (h7 rfl).1 (by simp)
      have hqu : queued = false := by
        cases queued with
        | false => rfl
        | true => exact absurd (h8 rfl).1 (by simp)
      subst hok hqu
      refine ⟨[], [], evsa, h1, h2, by simpa using h3, List.nil_sublist _, by simpa using h4,
        List.nil_sublist _, by simp, by simp, by simpa using h5, ?_, ?_, ?_, ?_, h12, ?_, h14⟩
      · intro j _
        by_cases hj : j = i
        · subst hj
          exact h6 rfl
        · rw [h13 j hj]
      · rcases h9 with h9 | h9
        · simp at h9
        · exact Or.inr h9
      · intro _
        exact Or.inr (by simp)
      · intro _ h
        simp at h
      · intro j hj
        exact h13 j (fun h => hj (h ▸ List.mem_cons_self _ _))
    | none =>
      rw [rangeLoop_cons_none body i is st hoa]
      obtain ⟨rs, qs, evs, g1, g2, g3, g4, g5, g6, g7, g8, g9, g10, g11, g12, g13, g14, g15,
          g16⟩ :=
        ih hnd1 (body i st).1
      have hrs_is : ∀ j ∈ rs, j ∈ is := fun j hj => g4.subset hj
      have hqs_is : ∀ j ∈ qs, j ∈ is := fun j hj => g6.subset hj
      have hPi : resErrSet (rangeLoop body is (body i st).1).1.pkgs i
          = resErrSet (body i st).1.pkgs i := by
        unfold resErrSet
        rw [g15 i hi]
      refine ⟨(if ok then [i] else []) ++ rs, (if queued then [i] else []) ++ qs, evsa ++ evs,
        ?_, ?_, ?_, ?_, ?_, ?_, ?_, ?_, ?_, ?_, g11, ?_, ?_, ?_, ?_, ?_⟩
      · rw [g1, h1, List.append_assoc]
      · intro e he
        rcases List.mem_append.mp he with h0 | h0
        · exact h2 e h0
        · exact g2 e h0
      · rw [List.filterMap_append, h3, g3]
      · cases ok with
        | true => simpa using g4
        | false => simpa using List.Sublist.cons i g4
      · rw [g5, h4, List.append_assoc]
      · cases queued with
        | true => simpa using g6
        | false => simpa using List.Sublist.cons i g6
      · intro j hj
        rcases List.mem_append.mp hj with h0 | h0
        · cases queued with
          | false => simp at h0
          | true =>
            simp only [if_true, List.mem_singleton] at h0
            subst h0
            have hokf : ok = false := by
              cases ok with
              | false => rfl
              | true => exact absurd (h7 rfl).2 (by simp)
            subst hokf
            simp only [Bool.false_eq_true, if_false, List.nil_append]
            exact fun h => hi (hrs_is j h)
        · have hji : j ≠ i := fun h => hi (h ▸ hqs_is j h0)
          intro h
          rcases List.mem_append.mp h with h' | h'
          · cases ok with
            | false => simp at h'
            | true =>
              simp only [if_true, List.mem_singleton] at h'
              exact hji h'
          · exact g7 j h0 h'
      · intro hne
        cases queued with
        | true => exact (h8 rfl).2
        | false =>
          apply g8
          simpa using hne
      · rw [g9, h5, List.filter_append, List.append_assoc]
        congr 2
        cases ok with
        | false => simp
        | true =>
          simp only [Bool.true_and, if_true, List.filter_cons, List.filter_nil, hPi]
      · intro j hj
        have hj1 : j ∉ rs := fun h => hj (List.mem_append_right _ h)
        rw [g10 j hj1]
        by_cases hji : j = i
        · subst hji
          apply h6
          cases ok with
          | false => rfl
          | true => exact absurd (List.mem_append_left _ (by simp)) hj
        · rw [h13 j hji]
      · rintro ⟨e, he, hf⟩
        rcases List.mem_append.mp he with h0 | h0
        · rcases h10 ⟨e, h0, hf⟩ with hq | hq
          · subst hq
            exact Or.inl (by simp)
          · exact absurd hoa hq
        · rcases g12 ⟨e, h0, hf⟩ with hq | hq
          · exact Or.inl (by
              intro h
              exact hq (List.append_eq_nil.mp h).2)
          · exact Or.inr hq
      · intro hph ho
        rcases h11 hph with hk | hk
        · subst hk
          rw [g13 hph ho]
          simp
        · exact absurd hoa hk
      · rw [g14, h12]
      · intro j hj
        have hj1 : j ∉ is := fun h => hj (List.mem_cons_of_mem _ h)
        have hj2 : j ≠ i := fun h => hj (h ▸ List.mem_cons_self _ _)
        rw [g15 j hj1, h13 j hj2]
      · intro j
        rcases g16 j with h | h
        · rw [h]
          exact h14 j
        · exact Or.inr h

theorem localLoop_facts (c : Ctx) (is : List Nat) (hnd : is.Nodup) (st : St) :
    LoopFacts Phase.localPhase is st (localLoop c is st).1 (localLoop c is st).2 :=
  rangeLoop_facts Phase.localPhase (localStep c) (localStep_facts c) is hnd st

theorem netLoop_facts (c : Ctx) (is : List Nat) (hnd : is.Nodup) (st : St) :
    LoopFacts Phase.network is st (netLoop c is st).1 (netLoop c is st).2 :=
  rangeLoop_facts Phase.network (netStep c) (netStep_facts c) is hnd st

theorem resolve_of_local_some (c : Ctx) (st : St) (o : Outcome) (hu : c.f.fUpgrade = false)
    (h : (localLoop c (List.range c.n) st).2 = some o) :
    resolve c st = ((localLoop c (List.range c.n) st).1, some o) := by
  rcases hl : localLoop c (List.range c.n) st with ⟨s1, o1⟩
  rw [hl] at h
  simp only at h
  subst h
  simp [resolve, hu, hl]

theorem resolve_of_local_none (c : Ctx) (st : St) (hu : c.f.fUpgrade = false)
    (h : (localLoop c (List.range c.n) st).2 = none) :
    resolve c st =
      if c.f.fNoNet && decide ((localLoop c (List.range c.n) st).1.netPkgs.length > 0) then
        ((localLoop c (List.range c.n) st).1, some (Outcome.panic "invariant on netPkgs failed"))
      else netLoop c (localLoop c (List.range c.n) st).1.netPkgs
        (localLoop c (List.range c.n) st).1 := by
  rcases hl : localLoop c (List.range c.n) st with ⟨s1, o1⟩
  rw [hl] at h
  simp only at h
  subst h
  simp [resolve, hu, hl]

theorem resolve_of_upgrade (c : Ctx) (st : St) (hu : c.f.fUpgrade = true)
    (hn : c.f.fNoNet = false) :
    resolve c st = netLoop c (List.range c.n) { st with netPkgs := List.range c.n } := by
  simp [resolve, hu, hn]

/-- A spec among those a loop resolved has a `list` step of that phase that
returned `nil`. -/
theorem resolved_has_call (ph : Phase) (evs : List Event) (j : Nat)
    (hin : ∀ e ∈ evs, e.inPhase ph = true) (hj : j ∈ evs.filterMap Event.resolved) :
    ∃ cmd, Event.call ph Step.list j cmd none ∈ evs := by
  obtain ⟨e, he, hr⟩ := List.mem_filterMap.mp hj
  have hp := hin e he
  cases e with
  | call ph1 step k cmd err =>
    cases step <;> cases err <;> simp [Event.resolved] at hr
    subst hr
    simp [Event.inPhase] at hp
    subst hp
    exact ⟨cmd, he⟩
  | _ => simp [Event.resolved] at hr

theorem inPhase_local_not_network (e : Event) (h : e.inPhase Phase.localPhase = true) :
    e.isNetworkCall = false := by
  cases e with
  | call ph step k cmd err =>
    cases step <;> simp [Event.inPhase] at h
    all_goals subst h; rfl
  | _ => rfl

/-- The facts of the two resolution phases together, from a state with an
empty queue: `rs` are the specs resolved, in order. -/
theorem resolve_facts (c : Ctx) (st : St) (hq : st.netPkgs = [])
    (hfl : ¬ (c.f.fUpgrade = true ∧ c.f.fNoNet = true)) :
    ∃ (rs : List Nat) (evs : List Event),
      (resolve c st).1.trace = st.trace ++ evs
      ∧ (∀ e ∈ evs, e.inPhase Phase.localPhase = true ∨ e.inPhase Phase.network = true)
      ∧ evs.filterMap Event.resolved = rs
      ∧ rs.Nodup
      ∧ (resolve c st).1.nonMain = st.nonMain ++ rs.filter (resErrSet (resolve c st).1.pkgs)
      ∧ (∀ j, j ∉ rs →
          ((resolve c st).1.pkgs.getD j default).resErr = (st.pkgs.getD j default).resErr)
      ∧ (∀ j, ((resolve c st).1.pkgs.getD j default).resErr = (st.pkgs.getD j default).resErr
          ∨ ((resolve c st).1.pkgs.getD j default).resErr = some errNonMain)
      ∧ (c.f.fNoNet = true → (∀ e ∈ evs, e.isNetworkCall = false)
          ∧ ((∃ e ∈ evs, e.isFailedLocal = true) → (resolve c st).2 ≠ none))
      ∧ ((resolve c st).2 = none ∨ (∃ msg, (resolve c st).2 = some (Outcome.error msg))
          ∨ (∃ msg, (resolve c st).2 = some (Outcome.panic msg)))
      ∧ ((resolve c st).2 = none → ∀ j ∈ (resolve c st).1.netPkgs,
          ∃ cmd, Event.call Phase.network Step.list j cmd none ∈ evs) := by
  cases hu : c.f.fUpgrade with
  | true =>
    have hn : c.f.fNoNet = false := by
      cases h : c.f.fNoNet with
      | false => rfl
      | true => exact absurd ⟨hu, h⟩ hfl
    rw [resolve_of_upgrade c st hu hn]
    obtain ⟨rs, qs, evs, g1, g2, g3, g4, g5, g6, g7, g8, g9, g10, g11, g12, g13, g14, g15,
      g16⟩ := netLoop_facts c (List.range c.n) (List.nodup_range c.n)
        { st with netPkgs := List.range c.n }
    have hqs : qs = [] := by
      by_contra h
      have := g8 h
      cases this
    subst hqs
    refine ⟨rs, evs, g1, fun e he => Or.inr (g2 e he), g3, g4.nodup (List.nodup_range c.n),
      g9, g10, g16, ?_, ?_, ?_⟩
    · intro h
      rw [hn] at h
      cases h
    · rcases g11 with h | h
      · exact Or.inl h
      · exact Or.inr (Or.inl h)
    · intro ho j hj
      rw [g5] at hj
      simp only [List.append_nil] at hj
      have hrs := g13 rfl ho
      apply resolved_has_call Phase.network evs j g2
      rw [g3, hrs]
      exact hj
  | false =>
    obtain ⟨rs, qs, evs, g1, g2, g3, g4, g5, g6, g7, g8, g9, g10, g11, g12, g13, g14, g15,
      g16⟩ := localLoop_facts c (List.range c.n) (List.nodup_range c.n) st
    rw [hq, List.nil_append] at g5
    cases ho1 : (localLoop c (List.range c.n) st).2 with
    | some o =>
      rw [resolve_of_local_some c st o hu ho1]
      rw [ho1] at g11 g12
      refine ⟨rs, evs, g1, fun e he => Or.inl (g2 e he), g3, g4.nodup (List.nodup_range c.n),
        g9, g10, g16, ?_, ?_, ?_⟩
      · intro _
        exact ⟨fun e he => inPhase_local_not_network e (g2 e he), fun _ => by simp⟩
      · rcases g11 with h | h
        · simp at h
        · exact Or.inr (Or.inl h)
      · intro h
        simp at h
    | none =>
      rw [resolve_of_local_none c st hu ho1]
      rw [ho1] at g11 g12
      by_cases hp : (c.f.fNoNet && decide ((localLoop c (List.range c.n) st).1.netPkgs.length > 0))
          = true
      · rw [if_pos hp]
        refine ⟨rs, evs, g1, fun e he => Or.inl (g2 e he), g3, g4.nodup (List.nodup_range c.n),
          g9, g10, g16, ?_, ?_, ?_⟩
        · intro _
          exact ⟨fun e he => inPhase_local_not_network e (g2 e he), fun _ => by simp⟩
        · exact Or.inr (Or.inr ⟨_, rfl⟩)
        · intro h
          simp at h
      · rw [if_neg hp]
        have hqnd : qs.Nodup := g6.nodup (List.nodup_range c.n)
        rw [g5]
        obtain ⟨rs2, qs2, evs2, k1, k2, k3, k4, k5, k6, k7, k8, k9, k10, k11, k12, k13, k14,
          k15, k16⟩ := netLoop_facts c qs hqnd (localLoop c (List.range c.n) st).1
        have hqs2 : qs2 = [] := by
          by_contra h
          have := k8 h
          cases this
        subst hqs2
        have hdisj : ∀ j ∈ rs2, j ∉ rs := fun j hj h => g7 j (k4.subset hj) h
        refine ⟨rs ++ rs2, evs ++ evs2, ?_, ?_, ?_, ?_, ?_, ?_, ?_, ?_, ?_, ?_⟩
        · rw [k1, g1, List.append_assoc]
        · intro e he
          rcases List.mem_append.mp he with h | h
          · exact Or.inl (g2 e h)
          · exact Or.inr (k2 e h)
        · rw [List.filterMap_append, g3, k3]
        · rw [List.nodup_append]
          refine ⟨g4.nodup (List.nodup_range c.n), k4.nodup hqnd, ?_⟩
          intro j hj1 hj2
          exact hdisj j hj2 hj1
        · rw [k9, g9, List.filter_append, List.append_assoc]
          congr 2
          apply List.filter_congr
          intro j hj
          have hjq : j ∉ qs := fun h => g7 j h hj
          unfold resErrSet
          rw [k15 j hjq]
        · intro j hj
          have h1 : j ∉ rs := fun h => hj (List.mem_append_left _ h)
          have h2 : j ∉ rs2 := fun h => hj (List.mem_append_right _ h)
          rw [k10 j h2, g10 j h1]
        · intro j
          rcases k16 j with h | h
          · rw [h]
            exact g16 j
          · exact Or.inr h
        · intro hn
          have hqe : qs = [] := by
            rw [hn, g5] at hp
            simp at hp
            exact hp
          subst hqe
          have hevs2 : evs2 = [] := by
            have : (netLoop c [] (localLoop c (List.range c.n) st).1).1.trace
                = (localLoop c (List.range c.n) st).1.trace := rfl
            rw [k1] at this
            simpa using this
          subst hevs2
          rw [List.append_nil]
          refine ⟨fun e he => inPhase_local_not_network e (g2 e he), ?_⟩
          intro hf
          rcases g12 hf with h | h
          · exact absurd rfl h
          · exact absurd rfl h
        · rcases k11 with h | h
          · exact Or.inl h
          · exact Or.inr (Or.inl h)
        · intro ho j hj
          rw [k5, List.append_nil, g5] at hj
          have hrs := k13 rfl ho
          obtain ⟨cmd, hc⟩ := resolved_has_call Phase.network evs2 j k2 (by
            rw [k3, hrs]
            exact hj)
          exact ⟨cmd, List.mem_append_right _ hc⟩

/-! ## Setup and cleanup -/

theorem forceMainMod_flags (f : Flags) :
    (forceMainMod f).fNoNet = f.fNoNet ∧ (forceMainMod f).fUpgrade = f.fUpgrade := by
  unfold forceMainMod
  split <;> exact ⟨rfl, rfl⟩

theorem checkFlags_ok (w : World) (f f1 : Flags) (h : checkFlags w f = .ok f1) :
    f1.fNoNet = f.fNoNet ∧ f1.fUpgrade = f.fUpgrade
      ∧ ¬ (f1.fUpgrade = true ∧ f1.fNoNet = true) := by
  unfold checkFlags at h
  by_cases h1 : commCount f > 1
  · rw [if_pos h1] at h
    cases h
  · rw [if_neg h1] at h
    by_cases h2 : f.fMod ≠ "" ∧ ¬ (f.fMod = "readonly" ∨ f.fMod = "vendor")
    · rw [if_pos h2] at h
      cases h
    · rw [if_neg h2] at h
      by_cases h3 : ((forceMainMod f).fUpgrade && (forceMainMod f).fNoNet) = true
      · rw [if_pos h3] at h
        cases h
      · rw [if_neg h3] at h
        injection h with h
        subst h
        refine ⟨(forceMainMod_flags f).1, (forceMainMod_flags f).2, ?_⟩
        simpa using h3

theorem mkArg_resErr (patt wd : String) : (mkArg patt wd).resErr = none := by
  unfold mkArg
  dsimp only
  split <;> rfl

theorem prepareLoop_resErr (w : World) (f : Flags) (cwd : String) (patts : List String)
    (acc : List arg) (tmp tmp1 : List String) (pkgs : List arg)
    (hacc : ∀ a ∈ acc, a.resErr = none)
    (h : prepareLoop w f cwd patts acc tmp = (tmp1, .ok pkgs)) :
    ∀ a ∈ pkgs, a.resErr = none := by
  induction patts generalizing acc tmp with
  | nil =>
    simp only [prepareLoop, Prod.mk.injEq, Except.ok.injEq] at h
    rw [← h.2]
    exact hacc
  | cons p rest ih =>
    have hacc1 : ∀ wd, ∀ a ∈ acc ++ [mkArg p wd], a.resErr = none := by
      intro wd a ha
      rcases List.mem_append.mp ha with h1 | h1
      · exact hacc a h1
      · simp only [List.mem_singleton] at h1
        rw [h1]
        exact mkArg_resErr p wd
    unfold prepareLoop at h
    split at h
    · exact ih _ _ (hacc1 cwd) h
    · split at h
      · simp at h
      · dsimp only at h
        split at h
        · simp at h
        · exact ih _ _ (hacc1 _) h

theorem cleanup_outcome (tmp : List String) (o : Outcome) (st : St) :
    (cleanup tmp o st).outcome = o := by
  cases o <;> rfl

theorem cleanup_pkgs (tmp : List String) (o : Outcome) (st : St) :
    (cleanup tmp o st).pkgs = st.pkgs := by
  cases o <;> rfl

theorem cleanup_trace (tmp : List String) (o : Outcome) (st : St) :
    ∃ extra, (cleanup tmp o st).trace = st.trace ++ extra
      ∧ ∀ e ∈ extra, ∃ p, e = Event.removeAll p := by
  cases o with
  | exec argv env => exact ⟨[], by simp [cleanup], by simp⟩
  | ok => exact ⟨tmp.map Event.removeAll, rfl, by simp⟩
  | error msg => exact ⟨tmp.map Event.removeAll, rfl, by simp⟩
  | panic msg => exact ⟨tmp.map Event.removeAll, rfl, by simp⟩

theorem setup_error_trace (f : Flags) (args : List String) (w : World) (r : Result)
    (h : setup f args w = .error r) : ∀ e ∈ r.trace, ∃ p, e = Event.removeAll p := by
  unfold setup at h
  dsimp only at h
  split at h
  · injection h with h
    subst h
    simp
  · split at h
    · injection h with h
      subst h
      simp
    · split at h
      · injection h with h
        subst h
        simp
      · split at h
        · injection h with h
          subst h
          obtain ⟨extra, he, hx⟩ := cleanup_trace ‹_› (Outcome.error ‹_›) (St.init w [])
          rw [he]
          simpa [St.init] using hx
        · cases h

theorem setup_ok (f : Flags) (args : List String) (w : World) (c : Ctx) (tmp : List String)
    (pkgs : List arg) (h : setup f args w = .ok (c, tmp, pkgs)) :
    c.w = w ∧ c.f.fNoNet = f.fNoNet ∧ c.f.fUpgrade = f.fUpgrade
      ∧ ¬ (c.f.fUpgrade = true ∧ c.f.fNoNet = true)
      ∧ c.n = pkgs.length ∧ ∀ a ∈ pkgs, a.resErr = none := by
  unfold setup at h
  dsimp only at h
  split at h
  · cases h
  · rename_i f1 hf
    obtain ⟨h1, h2, h3⟩ := checkFlags_ok w f f1 hf
    split at h
    · cases h
    · split at h
      · cases h
      · split at h
        · cases h
        · rename_i tmp1 pkgs1 hp
          injection h with h
          simp only [Prod.mk.injEq] at h
          obtain ⟨hc, ht, hpk⟩ := h
          subst hc hpk
          refine ⟨rfl, h1, h2, h3, rfl, ?_⟩
          exact prepareLoop_resErr _ _ _ _ [] [] _ _ (by simp) hp

/-! ## The report and the install loop -/

theorem quiet_of_mem_append (t added : List Event) (e : Event)
    (hq : ∀ x ∈ added, x.isResolveStep = false) (he : e ∈ t ++ added) :
    e ∈ t ∨ e.isResolveStep = false := by
  rcases List.mem_append.mp he with h | h
  · exact Or.inl h
  · exact Or.inr (hq e h)

theorem Quiet.refl (st : St) : Quiet st st := fun _ he => Or.inl he

theorem Quiet.trans {st s1 s2 : St} (h1 : Quiet st s1) (h2 : Quiet s1 s2) : Quiet st s2 := by
  intro e he
  rcases h2 e he with h | h
  · exact h1 e h
  · exact Or.inr h

theorem Quiet.add {st s1 : St} (evs : List Event) (s2 : St) (h1 : Quiet st s1)
    (htr : s2.trace = s1.trace ++ evs) (hq : ∀ x ∈ evs, x.isResolveStep = false) :
    Quiet st s2 := by
  intro e he
  rw [htr] at he
  rcases List.mem_append.mp he with h | h
  · exact h1 e h
  · exact Or.inr (hq e h)

theorem run_quiet (c : Ctx) (st : St) (cmd : Cmd) : Quiet st (run c st cmd).1 := by
  obtain ⟨dbg, hdbg, hrun⟩ := run_fst c st cmd
  refine Quiet.add dbg _ (Quiet.refl st) (by rw [hrun]) ?_
  intro x hx
  obtain ⟨s, rfl⟩ := hdbg x hx
  rfl

theorem run_quiet_of (c : Ctx) (st st1 : St) (cmd : Cmd) (e : Option String) (o : Stdout)
    (h : run c st cmd = (st1, e, o)) : Quiet st st1 := by
  have := run_quiet c st cmd
  rw [h] at this
  exact this

theorem removeIgnoringError_quiet (st : St) (p : String) :
    Quiet st (removeIgnoringError st p) :=
  Quiet.add [Event.remove p] _ (Quiet.refl st) rfl (by simp [Event.isResolveStep])

theorem installCopy_quiet (c : Ctx) (mp : listPkg) (target : String) (st : St) :
    Quiet st (installCopy c mp target st).1 := by
  unfold installCopy
  dsimp only
  by_cases hs : mp.ImportPath = selfImportPath
  · simp only [hs, decide_True, if_true, removeIgnoringError]
    split
    · exact Quiet.add _ _ (Quiet.refl st) rfl (by simp [Event.isResolveStep])
    · split
      · intro e he
        dsimp only at he
        try simp only [List.append_assoc] at he
        exact quiet_of_mem_append _ _ e (by simp [Event.isResolveStep]) he
      · split
        · intro e he
          dsimp only at he
          try simp only [List.append_assoc] at he
          exact quiet_of_mem_append _ _ e (by simp [Event.isResolveStep]) he
        · split
          · intro e he
            dsimp only at he
            try simp only [List.append_assoc] at he
            exact quiet_of_mem_append _ _ e (by simp [Event.isResolveStep]) he
          · intro e he
            dsimp only at he
            try simp only [List.append_assoc] at he
            exact quiet_of_mem_append _ _ e (by simp [Event.isResolveStep]) he
  · simp only [hs, decide_False, Bool.false_eq_true, if_false]
    split
    · exact Quiet.add _ _ (Quiet.refl st) rfl (by simp [Event.isResolveStep])
    · split
      · intro e he
        dsimp only at he
        try simp only [List.append_assoc] at he
        exact quiet_of_mem_append _ _ e (by simp [Event.isResolveStep]) he
      · split
        · intro e he
          dsimp only at he
          try simp only [List.append_assoc] at he
          exact quiet_of_mem_append _ _ e (by simp [Event.isResolveStep]) he
        · split
          · intro e he
            dsimp only at he
            try simp only [List.append_assoc] at he
            exact quiet_of_mem_append _ _ e (by simp [Event.isResolveStep]) he
          · intro e he
            dsimp only at he
            try simp only [List.append_assoc] at he
            exact quiet_of_mem_append _ _ e (by simp [Event.isResolveStep]) he

theorem installOne_quiet (c : Ctx) (i : Nat) (mp : listPkg) (st : St) :
    Quiet st (installOne c i mp st).1 := by
  unfold installOne
  split
  · exact Quiet.refl st
  · rename_i rel _
    dsimp only
    have hpre : Quiet st (if mp.ImportPath = selfImportPath then
        removeIgnoringError st (filepathJoin [filepathJoin [c.gobinCache, rel],
          pathBase mp.ImportPath]) else st) := by
      split
      · exact removeIgnoringError_quiet st _
      · exact Quiet.refl st
    split
    · rename_i st1 err o hr
      have hrun := run_quiet_of c _ _ _ _ _ hr
      exact Quiet.add _ _ (hpre.trans hrun) rfl (by simp [Event.isResolveStep])
    · rename_i st1 o hr
      have hrun := run_quiet_of c _ _ _ _ _ hr
      have hcall : Quiet st { st1 with trace := st1.trace ++ [Event.call Phase.installPhase
          Step.install i
          { args := ["go", "install", mp.ImportPath],
            dir := ((if mp.ImportPath = selfImportPath then
              removeIgnoringError st (filepathJoin [filepathJoin [c.gobinCache, rel],
                pathBase mp.ImportPath]) else st).pkgs.getD i default).wd,
            env := buildEnv c.w c.f ("GOPROXY=" ++ ("file://" ++ c.modDlCache))
              ++ ["GOBIN=" ++ filepathJoin [c.gobinCache, rel]] } none] } :=
        Quiet.add _ _ (hpre.trans hrun) rfl (by simp [Event.isResolveStep])
      split
      · exact hcall
      · split
        · exact Quiet.add _ _ hcall rfl (by simp [Event.isResolveStep])
        · split
          · exact Quiet.add _ _ hcall rfl (by simp [Event.isResolveStep])
          · split
            · split
              · exact hcall
              · exact hcall
            · exact hcall.trans (installCopy_quiet c mp _ _)

theorem installPkgs_quiet (c : Ctx) (i : Nat) (mps : List listPkg) (st : St) :
    Quiet st (installPkgs c i mps st).1 := by
  induction mps generalizing st with
  | nil => exact Quiet.refl st
  | cons mp rest ih =>
    unfold installPkgs
    have h1 := installOne_quiet c i mp st
    rcases hb : installOne c i mp st with ⟨s1, o1⟩
    rw [hb] at h1
    cases o1 with
    | some o => exact h1
    | none => exact h1.trans (ih s1)

theorem rangeLoop_quiet (body : Nat → St → St × Option Outcome)
    (hbody : ∀ i st, Quiet st (body i st).1) (is : List Nat) (st : St) :
    Quiet st (rangeLoop body is st).1 := by
  induction is generalizing st with
  | nil => exact Quiet.refl st
  | cons i rest ih =>
    unfold rangeLoop
    have h1 := hbody i st
    rcases hb : body i st with ⟨s1, o1⟩
    rw [hb] at h1
    cases o1 with
    | some o => exact h1
    | none => exact h1.trans (ih s1)

theorem installLoop_quiet (c : Ctx) (is : List Nat) (st : St) :
    Quiet st (installLoop c is st).1 :=
  rangeLoop_quiet _ (fun i s => installPkgs_quiet c i _ s) is st

theorem reportNonMain_quiet (st : St) : Quiet st (reportNonMain st).1 := by
  unfold reportNonMain
  split
  · refine Quiet.add _ _ (Quiet.refl st) rfl ?_
    intro x hx
    obtain ⟨j, _, rfl⟩ := List.mem_map.mp hx
    rfl
  · exact Quiet.refl st

theorem body_of_resolve_some (c : Ctx) (st : St) (o : Outcome)
    (h : (resolve c st).2 = some o) : body c st = ((resolve c st).1, o) := by
  rcases hr : resolve c st with ⟨s1, o1⟩
  rw [hr] at h
  simp only at h
  subst h
  simp [body, hr]

theorem body_of_resolve_none (c : Ctx) (st : St) (h : (resolve c st).2 = none) :
    Quiet (resolve c st).1 (body c st).1 := by
  rcases hr : resolve c st with ⟨s1, o1⟩
  rw [hr] at h
  simp only at h
  subst h
  unfold body
  simp only [hr]
  have h1 := reportNonMain_quiet s1
  rcases hrep : reportNonMain s1 with ⟨s2, o2⟩
  rw [hrep] at h1
  cases o2 with
  | some o => exact h1
  | none =>
    simp only
    have h2 := installLoop_quiet c (List.range c.n) s2
    rcases hin : installLoop c (List.range c.n) s2 with ⟨s3, o3⟩
    rw [hin] at h2
    cases o3 with
    | some o => exact h1.trans h2
    | none => exact h1.trans h2

theorem quiet_not_network (e : Event) (h : e.isResolveStep = false) : e.isNetworkCall = false := by
  cases e with
  | call ph step k cmd err =>
    cases ph
    · simp [Event.isResolveStep] at h
    · simp [Event.isResolveStep] at h
    · rfl
  | _ => rfl

theorem quiet_not_failed (e : Event) (h : e.isResolveStep = false) : e.isFailedLocal = false := by
  cases e with
  | call ph step k cmd err =>
    cases ph
    · simp [Event.isResolveStep] at h
    · simp [Event.isResolveStep] at h
    · rfl
  | _ => rfl

/-! ## No network under `-nonet` (C1) -/

/-- C1: under `-nonet`, if a `get` or `list` step of the local resolution
loop returns an error, the run fails (`mainerr` returns an error or panics)
and the trace holds no step of the network resolution loop. -/
theorem C1_nonet_local_failure (f : Flags) (args : List String) (w : World)
    (hnonet : f.fNoNet = true)
    (hfail : ∃ e ∈ (mainerr f args w).trace, e.isFailedLocal = true) :
    ((∃ msg, (mainerr f args w).outcome = Outcome.error msg)
      ∨ (∃ msg, (mainerr f args w).outcome = Outcome.panic msg))
    ∧ ∀ e ∈ (mainerr f args w).trace, e.isNetworkCall = false := by
  unfold mainerr at hfail ⊢
  cases hs : setup f args w with
  | error r =>
    rw [hs] at hfail
    simp only at hfail
    obtain ⟨e, he, hf⟩ := hfail
    obtain ⟨p, rfl⟩ := setup_error_trace f args w r hs e he
    cases hf
  | ok v =>
    obtain ⟨c, tmp, pkgs⟩ := v
    rw [hs] at hfail
    simp only at hfail ⊢
    obtain ⟨hw, hnn, _, hfl, _, _⟩ := setup_ok f args w c tmp pkgs hs
    rw [hnonet] at hnn
    obtain ⟨rs, evs, r1, _, _, _, _, _, _, r8, r9, _⟩ :=
      resolve_facts c (St.init w pkgs) rfl hfl
    obtain ⟨hnet, hfailed⟩ := r8 hnn
    have htr0 : (St.init w pkgs).trace = [] := rfl
    rw [htr0, List.nil_append] at r1
    rcases hb : body c (St.init w pkgs) with ⟨sb, ob⟩
    simp only
    rw [hb] at hfail
    simp only at hfail
    obtain ⟨extra, hx, hxr⟩ := cleanup_trace tmp ob sb
    rw [cleanup_outcome, hx]
    rw [hx] at hfail
    cases hro : (resolve c (St.init w pkgs)).2 with
    | some o =>
      have hbo := body_of_resolve_some c (St.init w pkgs) o hro
      rw [hb] at hbo
      simp only [Prod.mk.injEq] at hbo
      obtain ⟨hsb, hob⟩ := hbo
      constructor
      · rw [hro] at r9
        rw [hob]
        rcases r9 with h | ⟨msg, h⟩ | ⟨msg, h⟩
        · cases h
        · injection h with h
          exact Or.inl ⟨msg, h⟩
        · injection h with h
          exact Or.inr ⟨msg, h⟩
      · intro e he
        rcases List.mem_append.mp he with h | h
        · rw [hsb, r1] at h
          exact hnet e h
        · obtain ⟨p, rfl⟩ := hxr e h
          rfl
    | none =>
      exfalso
      have hq := body_of_resolve_none c (St.init w pkgs) hro
      rw [hb] at hq
      obtain ⟨e, he, hf⟩ := hfail
      rcases List.mem_append.mp he with h | h
      · rcases hq e h with h1 | h1
        · rw [r1] at h1
          exact hfailed ⟨e, h1, hf⟩ hro
        · rw [quiet_not_failed e h1] at hf
          cases hf
      · obtain ⟨p, rfl⟩ := hxr e h
        cases hf

/-- Witness for C1: `-nonet` with a module that is not
in the local download cache. -/
theorem C1_nonet_local_failure_witness :
    ((∃ msg, (mainerr { noFlags with fNoNet := true } ["example.com/cmd@v1.0.0"]
        (sampleWorld [] (localMisses []) [])).outcome = Outcome.error msg)
      ∨ (∃ msg, (mainerr { noFlags with fNoNet := true } ["example.com/cmd@v1.0.0"]
        (sampleWorld [] (localMisses []) [])).outcome = Outcome.panic msg))
    ∧ ∀ e ∈ (mainerr { noFlags with fNoNet := true } ["example.com/cmd@v1.0.0"]
        (sampleWorld [] (localMisses []) [])).trace, e.isNetworkCall = false :=
  C1_nonet_local_failure { noFlags with fNoNet := true } ["example.com/cmd@v1.0.0"]
    (sampleWorld [] (localMisses []) []) rfl (by decide)

theorem body_report (c : Ctx) (st : St) (h : (resolve c st).2 = none)
    (hnm : (resolve c st).1.nonMain ≠ []) :
    body c st = ({ (resolve c st).1 with
        trace := (resolve c st).1.trace ++ (resolve c st).1.nonMain.map
          (fun i => Event.report (reportLine ((resolve c st).1.pkgs.getD i default))) },
      Outcome.error ("failed to resolve module-based main package"
        ++ (if (resolve c st).1.nonMain.length > 1 then "s" else ""))) := by
  rcases hr : resolve c st with ⟨s1, o1⟩
  rw [hr] at h hnm
  simp only at h hnm
  subst h
  have hlen : s1.nonMain.length > 0 := List.length_pos.mpr hnm
  simp [body, hr, reportNonMain, hlen]

theorem inPhase_not_install (ph : Phase) (e : Event) (hph : ph ≠ Phase.installPhase)
    (h : e.inPhase ph = true) : e.isInstallCall = false := by
  cases e with
  | call ph1 step k cmd err =>
    cases step
    · simp only [Event.inPhase, decide_eq_true_eq] at h
      subst h
      cases ph1
      · rfl
      · rfl
      · exact absurd rfl hph
    · simp only [Event.inPhase, decide_eq_true_eq] at h
      subst h
      cases ph1
      · rfl
      · rfl
      · exact absurd rfl hph
    · simp [Event.inPhase] at h
  | _ => rfl

theorem inPhase_not_reported (ph : Phase) (e : Event) (h : e.inPhase ph = true) :
    e.reported = none := by
  cases e <;> first | rfl | simp [Event.inPhase] at h

theorem init_resErr (w : World) (pkgs : List arg) (h : ∀ a ∈ pkgs, a.resErr = none) (j : Nat) :
    ((St.init w pkgs).pkgs.getD j default).resErr = none := by
  show (pkgs.getD j default).resErr = none
  by_cases hj : j < pkgs.length
  · rw [List.getD_eq_getElem _ _ hj]
    exact h _ (List.getElem_mem hj)
  · rw [List.getD_eq_default _ _ (Nat.le_of_not_lt hj)]
    rfl

theorem reports_of_inPhase (evs : List Event)
    (h : ∀ e ∈ evs, e.inPhase Phase.localPhase = true ∨ e.inPhase Phase.network = true) :
    reports evs = [] := by
  unfold reports
  rw [List.filterMap_eq_nil_iff]
  intro e he
  rcases h e he with h1 | h1
  · exact inPhase_not_reported _ e h1
  · exact inPhase_not_reported _ e h1

theorem reports_map_report (l : List Nat) (g : Nat → String) :
    reports (l.map (fun i => Event.report (g i))) = l.map g := by
  induction l with
  | nil => rfl
  | cons i rest ih =>
    simp only [reports, List.map_cons, List.filterMap_cons, Event.reported] at ih ⊢
    rw [ih]

theorem resolved_map_report (l : List Nat) (g : Nat → String) :
    resolvedOrder (l.map (fun i => Event.report (g i))) = [] := by
  unfold resolvedOrder
  rw [List.filterMap_eq_nil_iff]
  intro e he
  obtain ⟨i, _, rfl⟩ := List.mem_map.mp he
  rfl

theorem projections_removeAll (extra : List Event) (h : ∀ e ∈ extra, ∃ p, e = Event.removeAll p) :
    reports extra = [] ∧ resolvedOrder extra = [] ∧ ∀ e ∈ extra, e.isInstallCall = false := by
  refine ⟨?_, ?_, ?_⟩
  · unfold reports
    rw [List.filterMap_eq_nil_iff]
    intro e he
    obtain ⟨p, rfl⟩ := h e he
    rfl
  · unfold resolvedOrder
    rw [List.filterMap_eq_nil_iff]
    intro e he
    obtain ⟨p, rfl⟩ := h e he
    rfl
  · intro e he
    obtain ⟨p, rfl⟩ := h e he
    rfl

/-! ## The non-main report (C4) -/

/-- C4: when both resolution phases complete and at least one spec has
`resErr` set, `mainerr` returns the error `failed to resolve module-based
main package(s)`, the trace holds no `go install` invocation, and the report
lines are, in the order the specs were resolved, one line
`<pkgPatt>@<verPatt>: not a main package` for each spec with `resErr` set:
each such spec was resolved, and no spec was resolved twice. -/
theorem C4_non_main_report (f : Flags) (args : List String) (w : World) (c : Ctx)
    (tmpDirs : List String) (allPkgs : List arg)
    (hs : setup f args w = .ok (c, tmpDirs, allPkgs))
    (hres : (resolve c (St.init w allPkgs)).2 = none)
    (hnm : ∃ i, resErrSet (resolve c (St.init w allPkgs)).1.pkgs i = true) :
    ((mainerr f args w).outcome = Outcome.error "failed to resolve module-based main package"
      ∨ (mainerr f args w).outcome
          = Outcome.error "failed to resolve module-based main packages")
    ∧ (∀ e ∈ (mainerr f args w).trace, e.isInstallCall = false)
    ∧ reports (mainerr f args w).trace
        = ((resolvedOrder (mainerr f args w).trace).filter
            (resErrSet (mainerr f args w).pkgs)).map
          (fun i => ((mainerr f args w).pkgs.getD i default).pkgPatt ++ "@"
            ++ ((mainerr f args w).pkgs.getD i default).verPatt ++ ": not a main package\n")
    ∧ (resolvedOrder (mainerr f args w).trace).Nodup
    ∧ (∀ i, resErrSet (mainerr f args w).pkgs i = true
        → i ∈ resolvedOrder (mainerr f args w).trace) := by
  obtain ⟨_, _, _, hfl, _, hinit⟩ := setup_ok f args w c tmpDirs allPkgs hs
  obtain ⟨rs, evs, r1, r2, r3, r4, r5, r6, r7, _, _, _⟩ :=
    resolve_facts c (St.init w allPkgs) rfl hfl
  have htr0 : (St.init w allPkgs).trace = [] := rfl
  have hnm0 : (St.init w allPkgs).nonMain = [] := rfl
  rw [htr0, List.nil_append] at r1
  rw [hnm0, List.nil_append] at r5
  have hmem : ∀ i, resErrSet (resolve c (St.init w allPkgs)).1.pkgs i = true → i ∈ rs := by
    intro i hi
    by_contra hni
    have := r6 i hni
    rw [init_resErr w allPkgs hinit i] at this
    unfold resErrSet at hi
    rw [this] at hi
    cases hi
  have hval : ∀ i, resErrSet (resolve c (St.init w allPkgs)).1.pkgs i = true →
      ((resolve c (St.init w allPkgs)).1.pkgs.getD i default).resErr = some errNonMain := by
    intro i hi
    rcases r7 i with h | h
    · rw [init_resErr w allPkgs hinit i] at h
      unfold resErrSet at hi
      rw [h] at hi
      cases hi
    · exact h
  have hne : (resolve c (St.init w allPkgs)).1.nonMain ≠ [] := by
    obtain ⟨i, hi⟩ := hnm
    rw [r5]
    intro hnil
    have : i ∈ List.filter (resErrSet (resolve c (St.init w allPkgs)).1.pkgs) rs :=
      List.mem_filter.mpr ⟨hmem i hi, hi⟩
    rw [hnil] at this
    cases this
  have hmain : mainerr f args w = cleanup tmpDirs (body c (St.init w allPkgs)).2
      (body c (St.init w allPkgs)).1 := by
    simp [mainerr, hs]
  rw [hmain, body_report c _ hres hne]
  simp only [cleanup_outcome, cleanup_pkgs]
  obtain ⟨extra, hx, hxr⟩ := cleanup_trace tmpDirs
    (Outcome.error ("failed to resolve module-based main package"
        ++ (if (resolve c (St.init w allPkgs)).1.nonMain.length > 1 then "s" else "")))
    { (resolve c (St.init w allPkgs)).1 with
        trace := (resolve c (St.init w allPkgs)).1.trace
          ++ (resolve c (St.init w allPkgs)).1.nonMain.map
            (fun i => Event.report
              (reportLine ((resolve c (St.init w allPkgs)).1.pkgs.getD i default))) }
  obtain ⟨hx1, hx2, hx3⟩ := projections_removeAll extra hxr
  rw [hx]
  simp only
  rw [r1]
  have hro : resolvedOrder (evs ++ (resolve c (St.init w allPkgs)).1.nonMain.map
      (fun i => Event.report
        (reportLine ((resolve c (St.init w allPkgs)).1.pkgs.getD i default))) ++ extra) = rs := by
    unfold resolvedOrder at hx2 ⊢
    rw [List.filterMap_append, List.filterMap_append, hx2, r3]
    have := resolved_map_report (resolve c (St.init w allPkgs)).1.nonMain
      (fun i => reportLine ((resolve c (St.init w allPkgs)).1.pkgs.getD i default))
    unfold resolvedOrder at this
    rw [this]
    simp
  rw [hro]
  refine ⟨?_, ?_, ?_, r4, hmem⟩
  · split
    · exact Or.inr rfl
    · exact Or.inl rfl
  · intro e he
    rcases List.mem_append.mp he with h | h
    · rcases List.mem_append.mp h with h1 | h1
      · rcases r2 e h1 with h2 | h2
        · exact inPhase_not_install _ e (by decide) h2
        · exact inPhase_not_install _ e (by decide) h2
      · obtain ⟨i, _, rfl⟩ := List.mem_map.mp h1
        rfl
    · exact hx3 e h
  · have hrep : reports (evs ++ (resolve c (St.init w allPkgs)).1.nonMain.map
        (fun i => Event.report
          (reportLine ((resolve c (St.init w allPkgs)).1.pkgs.getD i default))) ++ extra)
        = (resolve c (St.init w allPkgs)).1.nonMain.map
          (fun i => reportLine ((resolve c (St.init w allPkgs)).1.pkgs.getD i default)) := by
      have h1 := reports_of_inPhase evs r2
      have h2 := reports_map_report (resolve c (St.init w allPkgs)).1.nonMain
        (fun i => reportLine ((resolve c (St.init w allPkgs)).1.pkgs.getD i default))
      unfold reports at h1 h2 hx1 ⊢
      rw [List.filterMap_append, List.filterMap_append, h1, h2, hx1]
      simp
    rw [hrep, r5]
    apply List.map_congr_left
    intro i hi
    have hset := (List.mem_filter.mp hi).2
    unfold reportLine
    rw [hval i hset]
    simp only [Option.getD_some, errNonMain, String.append_assoc]
    rfl

/-- Witness for C4: two specs, the first a library and the
second a main package. -/
theorem C4_non_main_report_witness :
    reports (mainerr noFlags ["example.com/lib@v1.0.0", "example.com/cmd@v1.0.0"]
        (sampleWorld []
          (listFor [("example.com/lib", [mkPkg "example.com/lib" "lib" "example.com/lib" "v1.0.0"]),
                    ("example.com/cmd", [mkPkg "example.com/cmd" "main" "example.com/cmd" "v1.0.0"])])
          [])).trace
      = ["example.com/lib@v1.0.0: not a main package\n"] :=
  (C4_non_main_report noFlags ["example.com/lib@v1.0.0", "example.com/cmd@v1.0.0"]
    (sampleWorld []
      (listFor [("example.com/lib", [mkPkg "example.com/lib" "lib" "example.com/lib" "v1.0.0"]),
                ("example.com/cmd", [mkPkg "example.com/cmd" "main" "example.com/cmd" "v1.0.0"])])
      [])
    (sampleCtx noFlags (sampleWorld []
      (listFor [("example.com/lib", [mkPkg "example.com/lib" "lib" "example.com/lib" "v1.0.0"]),
                ("example.com/cmd", [mkPkg "example.com/cmd" "main" "example.com/cmd" "v1.0.0"])])
      []) 2)
    ["/tmp/gobin1", "/tmp/gobin1"]
    [mkArg "example.com/lib@v1.0.0" "/tmp/gobin1", mkArg "example.com/cmd@v1.0.0" "/tmp/gobin1"]
    (by rfl) (by decide) ⟨0, by decide⟩).2.2.1.trans (by decide)

/-! ## The failure policy of the local loop (C2) -/

theorem localList_result (c : Ctx) (u : Bool) (proxy : String) (i : Nat) (st : St) :
    (localList c u proxy i st).2
        = (if u then none else (arg.list c Phase.localPhase i proxy st).2.map Outcome.error)
    ∧ (localList c u proxy i st).1.netPkgs
        = st.netPkgs ++ (if u && (arg.list c Phase.localPhase i proxy st).2.isSome then [i]
            else []) := by
  obtain ⟨_, _, _, _, _, _, hnet, _, _⟩ := list_effect c Phase.localPhase i proxy st
  unfold localList
  rcases hl : arg.list c Phase.localPhase i proxy st with ⟨s1, el⟩
  rw [hl] at hnet
  simp only at hnet
  cases el with
  | some err => cases u <;> simp [hnet]
  | none => cases u <;> simp [noteNonMain_eq, hnet]

/-- C2, as amended.  With neither `-u` nor `-nonet`: an iteration of the
local loop returns from `mainerr` only when the fetch step ran and succeeded
and the query step then failed, and it returns that failure; the spec is
appended to the network queue when its fetch step failed, or when the fetch
step was skipped (main-module mode, empty version) and the query step
failed.  And when both phases complete, every spec in the network queue has
a query step of the network loop that returned `nil`. -/
theorem C2_local_failure_policy (c : Ctx) (i : Nat) (st st0 : St)
    (hn : c.f.fNoNet = false) (hu : c.f.fUpgrade = false)
    (hq : st0.netPkgs = []) (hdone : (resolve c st0).2 = none) :
    (localStep c i st).2
        = (if c.f.fMainMod && (st.pkgs.getD i default).verPatt == "" then none
           else if (arg.get c Phase.localPhase i ("GOPROXY=file://" ++ c.modDlCache) st).2.isSome
             then none
           else (arg.list c Phase.localPhase i ("GOPROXY=file://" ++ c.modDlCache)
              (arg.get c Phase.localPhase i ("GOPROXY=file://" ++ c.modDlCache) st).1).2.map
                Outcome.error)
    ∧ (localStep c i st).1.netPkgs
        = st.netPkgs ++
          (if c.f.fMainMod && (st.pkgs.getD i default).verPatt == "" then
             (if (arg.list c Phase.localPhase i ("GOPROXY=file://" ++ c.modDlCache) st).2.isSome
               then [i] else [])
           else if (arg.get c Phase.localPhase i ("GOPROXY=file://" ++ c.modDlCache) st).2.isSome
             then [i]
           else [])
    ∧ (∀ j ∈ (resolve c st0).1.netPkgs,
        ∃ cmd, Event.call Phase.network Step.list j cmd none ∈ (resolve c st0).1.trace) := by
  refine ⟨?_, ?_, ?_⟩
  · unfold localStep
    dsimp only
    cases hm : (c.f.fMainMod && (st.pkgs.getD i default).verPatt == "") with
    | true =>
      simp only [Bool.not_true, Bool.false_eq_true, if_false, if_true]
      rw [(localList_result c true _ i st).1]
      rfl
    | false =>
      simp only [Bool.not_false, if_true, Bool.false_eq_true, if_false]
      rcases hg : arg.get c Phase.localPhase i ("GOPROXY=file://" ++ c.modDlCache) st
        with ⟨sg, eg⟩
      cases eg with
      | some err => simp [hn]
      | none =>
        simp only [Option.isSome_none, Bool.false_eq_true, if_false]
        rw [(localList_result c false _ i sg).1]
        rfl
  · obtain ⟨_, _, _, _, hgnet, _⟩ :=
      get_effect c Phase.localPhase i ("GOPROXY=file://" ++ c.modDlCache) st
    unfold localStep
    dsimp only
    cases hm : (c.f.fMainMod && (st.pkgs.getD i default).verPatt == "") with
    | true =>
      simp only [Bool.not_true, Bool.false_eq_true, if_false, if_true]
      rw [(localList_result c true _ i st).2]
      simp
    | false =>
      simp only [Bool.not_false, if_true, Bool.false_eq_true, if_false]
      rcases hg : arg.get c Phase.localPhase i ("GOPROXY=file://" ++ c.modDlCache) st
        with ⟨sg, eg⟩
      rw [hg] at hgnet
      simp only at hgnet
      cases eg with
      | some err => simp [hn, hgnet]
      | none =>
        simp only [Option.isSome_none, Bool.false_eq_true, if_false]
        rw [(localList_result c false _ i sg).2, hgnet]
        simp
  · have hfl : ¬ (c.f.fUpgrade = true ∧ c.f.fNoNet = true) := by
      rw [hu]
      simp
    obtain ⟨rs, evs, r1, _, _, _, _, _, _, _, _, r10⟩ := resolve_facts c st0 hq hfl
    intro j hj
    obtain ⟨cmd, hc⟩ := r10 hdone j hj
    exact ⟨cmd, by rw [r1]; exact List.mem_append_right _ hc⟩

/-- Witness for C2: a module missing from the local
download cache is queued and resolved by the network loop. -/
theorem C2_local_failure_policy_witness :
    (localStep (sampleCtx noFlags (sampleWorld []
        (localMisses [mkPkg "example.com/cmd" "main" "example.com/cmd" "v1.0.0"]) []) 1) 0
      (St.init (sampleWorld []
        (localMisses [mkPkg "example.com/cmd" "main" "example.com/cmd" "v1.0.0"]) [])
        [mkArg "example.com/cmd@v1.0.0" "/tmp/gobin1"])).1.netPkgs = [0] :=
  (C2_local_failure_policy
    (sampleCtx noFlags (sampleWorld []
      (localMisses [mkPkg "example.com/cmd" "main" "example.com/cmd" "v1.0.0"]) []) 1) 0
    (St.init (sampleWorld []
      (localMisses [mkPkg "example.com/cmd" "main" "example.com/cmd" "v1.0.0"]) [])
      [mkArg "example.com/cmd@v1.0.0" "/tmp/gobin1"])
    (St.init (sampleWorld []
      (localMisses [mkPkg "example.com/cmd" "main" "example.com/cmd" "v1.0.0"]) [])
      [mkArg "example.com/cmd@v1.0.0" "/tmp/gobin1"])
    rfl rfl rfl (by decide)).2.1.trans (by decide)

/-- C2 fails as stated: with no flag set, for `example.com/cmd@v1.0.0` whose
local fetch succeeds and whose local query fails, `mainerr` returns that
failure, the network queue stays empty and no step of the network loop runs. -/
theorem C2_counterexample :
    (mainerr noFlags ["example.com/cmd@v1.0.0"] (sampleWorld [] listFails [])).outcome
      = Outcome.error
          "failed to run go list -json example.com/cmd: exit status 1\ncannot find module"
    ∧ (mainerr noFlags ["example.com/cmd@v1.0.0"] (sampleWorld [] listFails [])).netPkgs = []
    ∧ ∀ e ∈ (mainerr noFlags ["example.com/cmd@v1.0.0"] (sampleWorld [] listFails [])).trace,
        e.isNetworkCall = false := by
  decide

/-! ## Injectivity of the cache layout (C7) -/

theorem splitSlash_ne_nil (l : List Char) : splitSlash l ≠ [] := by
  induction l with
  | nil => simp [splitSlash]
  | cons c cs ih =>
    unfold splitSlash
    split
    · simp
    · split
      · simp
      · simp

theorem splitSlash_no_slash (l : List Char) : ∀ e ∈ splitSlash l, '/' ∉ e := by
  induction l with
  | nil => simp [splitSlash]
  | cons c cs ih =>
    intro e he
    unfold splitSlash at he
    split at he
    · rcases List.mem_cons.mp he with h | h
      · subst h; simp
      · exact ih e h
    · rename_i hc
      split at he
      · rename_i hnil
        exact absurd hnil (splitSlash_ne_nil cs)
      · rename_i e0 es heq
        rcases List.mem_cons.mp he with h | h
        · subst h
          have h0 : '/' ∉ e0 := ih e0 (by rw [heq]; exact List.mem_cons_self _ _)
          intro hm
          rcases List.mem_cons.mp hm with h1 | h1
          · exact hc h1.symm
          · exact h0 h1
        · exact ih e (by rw [heq]; exact List.mem_cons_of_mem _ h)

theorem splitSlash_elem (e : List Char) (h : '/' ∉ e) : splitSlash e = [e] := by
  induction e with
  | nil => rfl
  | cons c cs ih =>
    have hc : ¬ c = '/' := fun h1 => h (h1 ▸ List.mem_cons_self _ _)
    have hcs : '/' ∉ cs := fun h1 => h (List.mem_cons_of_mem _ h1)
    simp [splitSlash, hc, ih hcs]

theorem splitSlash_elem_slash (e rest : List Char) (h : '/' ∉ e) :
    splitSlash (e ++ '/' :: rest) = e :: splitSlash rest := by
  induction e with
  | nil => simp [splitSlash]
  | cons c cs ih =>
    have hc : ¬ c = '/' := fun h1 => h (h1 ▸ List.mem_cons_self _ _)
    have hcs : '/' ∉ cs := fun h1 => h (List.mem_cons_of_mem _ h1)
    simp [splitSlash, hc, ih hcs]

theorem splitSlash_joinSlash (es : List (List Char)) (hne : es ≠ [])
    (h : ∀ e ∈ es, '/' ∉ e) : splitSlash (joinSlash es) = es := by
  induction es with
  | nil => exact absurd rfl hne
  | cons e rest ih =>
    cases rest with
    | nil => exact splitSlash_elem e (h e (List.mem_cons_self _ _))
    | cons f fs =>
      simp only [joinSlash]
      rw [splitSlash_elem_slash e _ (h e (List.mem_cons_self _ _))]
      rw [ih (by simp) (fun x hx => h x (List.mem_cons_of_mem _ hx))]

theorem joinSlash_splitSlash (l : List Char) : joinSlash (splitSlash l) = l := by
  induction l with
  | nil => rfl
  | cons c cs ih =>
    unfold splitSlash
    split
    · rename_i hc
      subst hc
      have hne := splitSlash_ne_nil cs
      cases hs : splitSlash cs with
      | nil => exact absurd hs hne
      | cons f fs =>
        rw [hs] at ih
        simp only [joinSlash, List.nil_append]
        rw [ih]
    · split
      · rename_i hnil
        exact absurd hnil (splitSlash_ne_nil cs)
      · rename_i e0 es heq
        rw [heq] at ih
        cases es with
        | nil =>
          simp only [joinSlash] at ih ⊢
          rw [ih]
        | cons f fs =>
          simp only [joinSlash, List.cons_append] at ih ⊢
          rw [ih]

theorem joinSlash_append (es fs : List (List Char)) (he : es ≠ []) (hf : fs ≠ []) :
    joinSlash (es ++ fs) = joinSlash es ++ '/' :: joinSlash fs := by
  induction es with
  | nil => exact absurd rfl he
  | cons e rest ih =>
    cases rest with
    | nil =>
      cases fs with
      | nil => exact absurd rfl hf
      | cons f fs => simp [joinSlash]
    | cons g gs =>
      have := ih (by simp)
      simp only [List.cons_append] at this
      show e ++ '/' :: joinSlash (g :: (gs ++ fs)) = (e ++ '/' :: joinSlash (g :: gs)) ++ '/' :: joinSlash fs
      rw [this]
      simp

theorem cleanElems_plain (rooted : Bool) (es out : List (List Char))
    (h : ∀ e ∈ es, e ≠ [] ∧ e ≠ ['.'] ∧ e ≠ ['.', '.']) :
    cleanElems rooted es out = es.reverse ++ out := by
  induction es generalizing out with
  | nil => simp [cleanElems]
  | cons e rest ih =>
    obtain ⟨h1, h2, h3⟩ := h e (List.mem_cons_self _ _)
    unfold cleanElems
    rw [if_neg (by simp [h1, h2]), if_neg h3]
    rw [ih _ (fun x hx => h x (List.mem_cons_of_mem _ hx))]
    simp

theorem joinSlash_head (es : List (List Char)) (hne : es ≠ [])
    (h : ∀ e ∈ es, e ≠ [] ∧ '/' ∉ e) :
    ∃ c cs, joinSlash es = c :: cs ∧ c ≠ '/' := by
  cases es with
  | nil => exact absurd rfl hne
  | cons e rest =>
    obtain ⟨h1, h2⟩ := h e (List.mem_cons_self _ _)
    cases e with
    | nil => exact absurd rfl h1
    | cons c cs =>
      have hc : c ≠ '/' := fun hx => h2 (hx ▸ List.mem_cons_self _ _)
      cases rest with
      | nil => exact ⟨c, cs, rfl, hc⟩
      | cons f fs => exact ⟨c, _, rfl, hc⟩

/-- `Clean` leaves a clean relative path as it is. -/
theorem cleanChars_joinSlash (es : List (List Char)) (hne : es ≠ [])
    (h : ∀ e ∈ es, e ≠ [] ∧ '/' ∉ e ∧ e ≠ ['.'] ∧ e ≠ ['.', '.']) :
    cleanChars (joinSlash es) = joinSlash es := by
  obtain ⟨c, cs, hj, hc⟩ := joinSlash_head es hne (fun e he => ⟨(h e he).1, (h e he).2.1⟩)
  have hsplit := splitSlash_joinSlash es hne (fun e he => (h e he).2.1)
  have hclean := cleanElems_plain false es []
    (fun e he => ⟨(h e he).1, (h e he).2.2.1, (h e he).2.2.2⟩)
  unfold cleanChars
  rw [hj]
  simp only [hc, decide_False, Bool.false_eq_true, if_false]
  rw [← hj, hsplit, hclean]
  simp [hne]

theorem append_marker_inj {α : Type} (x : α) (a b r s : List α) (ha : x ∉ a) (hb : x ∉ b)
    (h : a ++ x :: r = b ++ x :: s) : a = b ∧ r = s := by
  induction a generalizing b with
  | nil =>
    cases b with
    | nil =>
      simp only [List.nil_append, List.cons.injEq, true_and] at h
      exact ⟨rfl, h⟩
    | cons y ys =>
      simp only [List.nil_append, List.cons_append, List.cons.injEq] at h
      exact absurd (h.1 ▸ List.mem_cons_self _ _) hb
  | cons z zs ih =>
    cases b with
    | nil =>
      simp only [List.nil_append, List.cons_append, List.cons.injEq] at h
      exact absurd (h.1 ▸ List.mem_cons_self _ _) ha
    | cons y ys =>
      simp only [List.cons_append, List.cons.injEq] at h
      obtain ⟨h1, h2⟩ := ih ys (fun hx => ha (List.mem_cons_of_mem _ hx))
        (fun hx => hb (List.mem_cons_of_mem _ hx)) h.2
      exact ⟨by rw [h.1, h1], h2⟩

theorem isPlainPath_elems (s : String) (h : isPlainPath s = true) :
    ∀ e ∈ splitSlash s.data,
      (e ≠ [] ∧ '/' ∉ e ∧ e ≠ ['.'] ∧ e ≠ ['.', '.']) ∧ e ≠ ['@', 'v'] := by
  intro e he
  have := List.all_eq_true.mp h e he
  simp only [isPlainElem, Bool.and_eq_true, decide_eq_true_eq] at this
  exact ⟨⟨this.1.1.1, splitSlash_no_slash s.data e he, this.1.1.2, this.1.2⟩, this.2⟩

theorem isVersionElem_elem (v : String) (h : isVersionElem v = true) :
    v.data ≠ [] ∧ '/' ∉ v.data ∧ v.data ≠ ['.'] ∧ v.data ≠ ['.', '.'] := by
  simp only [isVersionElem, Bool.and_eq_true, decide_eq_true_eq] at h
  exact ⟨h.1.1.1, h.1.1.2, h.1.2, h.2⟩

theorem data_ne_nil_of_ne (s : String) (h : s.data ≠ []) : s ≠ "" := by
  intro hs
  rw [hs] at h
  exact h rfl

/-- The relative install directory for a non-empty version that is a single
path element, when the two encoded paths are clean relative paths: the
elements of the encoded module path, `@v`, the version, and the elements of
the encoded import path, joined with slashes. -/
theorem mainrel_plain (w : World) (p : listPkg) (m i : String)
    (hM : w.EncodePath p.Module.Path = .ok m) (hI : w.EncodePath p.ImportPath = .ok i)
    (hm : isPlainPath m = true) (hi : isPlainPath i = true)
    (hV : isVersionElem p.Module.Version = true) :
    mainrel w p = .ok (String.mk (joinSlash
      (splitSlash m.data ++ ['@', 'v'] :: p.Module.Version.data :: splitSlash i.data))) := by
  have hem := isPlainPath_elems m hm
  have hei := isPlainPath_elems i hi
  have hv := isVersionElem_elem _ hV
  have hmne := splitSlash_ne_nil m.data
  have hine := splitSlash_ne_nil i.data
  have hmd : m.data = joinSlash (splitSlash m.data) := (joinSlash_splitSlash m.data).symm
  have hid : i.data = joinSlash (splitSlash i.data) := (joinSlash_splitSlash i.data).symm
  have hvne : p.Module.Version ≠ "" := data_ne_nil_of_ne _ hv.1
  have hmnonempty : m ≠ "" := by
    apply data_ne_nil_of_ne
    obtain ⟨c, cs, hj, _⟩ := joinSlash_head (splitSlash m.data) hmne
      (fun e he => ⟨(hem e he).1.1, (hem e he).1.2.1⟩)
    rw [hmd, hj]
    simp
  -- the module directory
  have hreal1 : ∀ e ∈ splitSlash m.data ++ [['@', 'v'], p.Module.Version.data],
      e ≠ [] ∧ '/' ∉ e ∧ e ≠ ['.'] ∧ e ≠ ['.', '.'] := by
    intro e he
    rcases List.mem_append.mp he with h | h
    · exact (hem e h).1
    · simp only [List.mem_cons, List.mem_singleton, List.not_mem_nil, or_false] at h
      rcases h with h | h
      · subst h
        decide
      · subst h
        exact hv
  have hmdir : filepathJoin [m, "@v", p.Module.Version]
      = String.mk (joinSlash (splitSlash m.data ++ [['@', 'v'], p.Module.Version.data])) := by
    unfold filepathJoin
    rw [if_neg hmnonempty]
    unfold Clean
    congr 1
    have : (stringsJoin "/" [m, "@v", p.Module.Version]).data
        = joinSlash (splitSlash m.data ++ [['@', 'v'], p.Module.Version.data]) := by
      rw [joinSlash_append _ _ hmne (by simp), ← hmd]
      simp [stringsJoin, joinSlash]
    rw [this]
    exact cleanChars_joinSlash _ (by simp) hreal1
  have hmdne : String.mk (joinSlash (splitSlash m.data ++ [['@', 'v'], p.Module.Version.data]))
      ≠ "" := by
    apply data_ne_nil_of_ne
    obtain ⟨c, cs, hj, _⟩ := joinSlash_head
      (splitSlash m.data ++ [['@', 'v'], p.Module.Version.data]) (by simp)
      (fun e he => ⟨(hreal1 e he).1, (hreal1 e he).2.1⟩)
    show joinSlash _ ≠ []
    rw [hj]
    simp
  have hreal2 : ∀ e ∈ (splitSlash m.data ++ [['@', 'v'], p.Module.Version.data])
      ++ splitSlash i.data, e ≠ [] ∧ '/' ∉ e ∧ e ≠ ['.'] ∧ e ≠ ['.', '.'] := by
    intro e he
    rcases List.mem_append.mp he with h | h
    · exact hreal1 e h
    · exact (hei e h).1
  simp only [mainrel, FromSlash, hM, hI, hvne, ne_eq, not_false_eq_true, if_true]
  rw [hmdir]
  unfold filepathJoin
  rw [if_neg hmdne]
  unfold Clean
  congr 2
  have : (stringsJoin "/" [String.mk (joinSlash
      (splitSlash m.data ++ [['@', 'v'], p.Module.Version.data])), i]).data
      = joinSlash ((splitSlash m.data ++ [['@', 'v'], p.Module.Version.data])
          ++ splitSlash i.data) := by
    rw [joinSlash_append _ _ (by simp) hine, ← hid]
    simp [stringsJoin]
  rw [this, cleanChars_joinSlash _ (by simp) hreal2]
  simp

/-- C7, as amended.  The relative install directory depends only on the
module path, the module version and the import path, so equal inputs give
the same directory.  Conversely, for two inputs whose versions are non-empty
single path elements and whose encoded module and import paths are clean
relative paths without an `@v` element (as the encoding of valid module
paths is), equal directories come from equal encoded paths and equal
versions, hence from equal inputs when the encoding is injective at them. -/
theorem C7_mainrel_injective (w : World) (p1 p2 : listPkg) (m1 i1 m2 i2 : String)
    (hM1 : w.EncodePath p1.Module.Path = .ok m1) (hI1 : w.EncodePath p1.ImportPath = .ok i1)
    (hM2 : w.EncodePath p2.Module.Path = .ok m2) (hI2 : w.EncodePath p2.ImportPath = .ok i2)
    (hplain : isPlainPath m1 = true ∧ isPlainPath i1 = true
      ∧ isPlainPath m2 = true ∧ isPlainPath i2 = true)
    (hV : isVersionElem p1.Module.Version = true ∧ isVersionElem p2.Module.Version = true)
    (hinj : (m1 = m2 → p1.Module.Path = p2.Module.Path)
      ∧ (i1 = i2 → p1.ImportPath = p2.ImportPath)) :
    (p1.Module.Path = p2.Module.Path ∧ p1.Module.Version = p2.Module.Version
        ∧ p1.ImportPath = p2.ImportPath)
      ↔ mainrel w p1 = mainrel w p2 := by
  constructor
  · rintro ⟨h1, h2, h3⟩
    simp only [mainrel, h1, h2, h3]
  · intro h
    rw [mainrel_plain w p1 m1 i1 hM1 hI1 hplain.1 hplain.2.1 hV.1,
      mainrel_plain w p2 m2 i2 hM2 hI2 hplain.2.2.1 hplain.2.2.2 hV.2] at h
    injection h with h
    injection h with h
    have hem1 := isPlainPath_elems m1 hplain.1
    have hei1 := isPlainPath_elems i1 hplain.2.1
    have hem2 := isPlainPath_elems m2 hplain.2.2.1
    have hei2 := isPlainPath_elems i2 hplain.2.2.2
    have hv1 := isVersionElem_elem _ hV.1
    have hv2 := isVersionElem_elem _ hV.2
    have hslash : ∀ (m i : String) (v : List Char),
        (∀ e ∈ splitSlash m.data, '/' ∉ e) → (∀ e ∈ splitSlash i.data, '/' ∉ e) → '/' ∉ v →
        ∀ e ∈ splitSlash m.data ++ ['@', 'v'] :: v :: splitSlash i.data, '/' ∉ e := by
      intro m i v hm hi hv e he
      rcases List.mem_append.mp he with h0 | h0
      · exact hm e h0
      · rcases List.mem_cons.mp h0 with h1 | h1
        · subst h1
          decide
        · rcases List.mem_cons.mp h1 with h2 | h2
          · subst h2
            exact hv
          · exact hi e h2
    have hlists := congrArg splitSlash h
    rw [splitSlash_joinSlash _ (by simp)
        (hslash m1 i1 _ (splitSlash_no_slash _) (splitSlash_no_slash _) hv1.2.1),
      splitSlash_joinSlash _ (by simp)
        (hslash m2 i2 _ (splitSlash_no_slash _) (splitSlash_no_slash _) hv2.2.1)] at hlists
    obtain ⟨hm, hrest⟩ := append_marker_inj ['@', 'v'] _ _ _ _
      (fun hx => (hem1 _ hx).2 rfl) (fun hx => (hem2 _ hx).2 rfl) hlists
    simp only [List.cons.injEq] at hrest
    have hmeq : m1 = m2 := by
      apply String.ext
      rw [← joinSlash_splitSlash m1.data, ← joinSlash_splitSlash m2.data, hm]
    have hieq : i1 = i2 := by
      apply String.ext
      rw [← joinSlash_splitSlash i1.data, ← joinSlash_splitSlash i2.data, hrest.2]
    exact ⟨hinj.1 hmeq, String.ext hrest.1, hinj.2 hieq⟩

/-- Witness for C7: the versions `v1.2.3` and `v1.2.4`
of `example.com/cmd`. -/
theorem C7_mainrel_injective_witness :
    ((mkPkg "example.com/cmd" "main" "example.com/cmd" "v1.2.3").Module.Path
          = (mkPkg "example.com/cmd" "main" "example.com/cmd" "v1.2.4").Module.Path
        ∧ (mkPkg "example.com/cmd" "main" "example.com/cmd" "v1.2.3").Module.Version
          = (mkPkg "example.com/cmd" "main" "example.com/cmd" "v1.2.4").Module.Version
        ∧ (mkPkg "example.com/cmd" "main" "example.com/cmd" "v1.2.3").ImportPath
          = (mkPkg "example.com/cmd" "main" "example.com/cmd" "v1.2.4").ImportPath)
      ↔ mainrel (sampleWorld [] (listGives []) [])
          (mkPkg "example.com/cmd" "main" "example.com/cmd" "v1.2.3")
        = mainrel (sampleWorld [] (listGives []) [])
          (mkPkg "example.com/cmd" "main" "example.com/cmd" "v1.2.4") :=
  C7_mainrel_injective (sampleWorld [] (listGives []) [])
    (mkPkg "example.com/cmd" "main" "example.com/cmd" "v1.2.3")
    (mkPkg "example.com/cmd" "main" "example.com/cmd" "v1.2.4")
    "example.com/cmd" "example.com/cmd" "example.com/cmd" "example.com/cmd"
    (by rfl) (by rfl) (by rfl) (by rfl) (by decide) (by decide) (by decide)

/-- C7 fails as stated: the module `example.com` with the package
`example.com/example.com/example.com/cmd` and the module
`example.com/example.com` with the package `example.com/example.com/cmd`,
both without version, are different inputs on which the encoding succeeds,
and they get the same relative install directory. -/
theorem C7_counterexample :
    (mkPkg "example.com/example.com/example.com/cmd" "main" "example.com" "").Module.Path
      ≠ (mkPkg "example.com/example.com/cmd" "main" "example.com/example.com" "").Module.Path
    ∧ mainrel (sampleWorld [] (listGives []) [])
        (mkPkg "example.com/example.com/example.com/cmd" "main" "example.com" "")
      = .ok "example.com/example.com/example.com/example.com/cmd"
    ∧ mainrel (sampleWorld [] (listGives []) [])
        (mkPkg "example.com/example.com/cmd" "main" "example.com/example.com" "")
      = .ok "example.com/example.com/example.com/example.com/cmd" := by
  refine ⟨by decide, by rfl, by rfl⟩

end Gobin
